import Mathlib

/-!
# Verification of the Tetris engine of `simple-tetris`

Shallow embedding of `src/consts/const.js`, `src/utils/gameLogic.js`,
`src/hooks/useTetrisGame.js` and the engine part of `src/components/TetrisGame.jsx`.

Conventions of the embedding

* JavaScript numbers that the engine uses as integers (cells, coordinates, counters,
  milliseconds) are `Int`.
* A grid (board or shape) is a list of rows, a row is a list of cells.
* A function whose JavaScript evaluation can raise a `TypeError` (indexing into
  `undefined`) returns an `Option`; `none` is the raised error.
* `Math.random` is replaced by an explicit catalog index handed to the function that
  draws the next piece.
* An assignment past the end of a row lengthens the row, as in JavaScript; a slot that it
  leaves empty is written `emptySlot`.
-/

namespace Tetris

/-! ## `consts/const.js` -/

def BOARD_WIDTH : Int := 14

def BOARD_HEIGHT : Int := 30

abbrev Shape := List (List Int)

abbrev Board := List (List Int)

def PIECES : List Shape :=
  [ [[1, 1],
     [1, 1]],
    [[1, 1, 1, 1]],
    [[1, 0, 0],
     [1, 1, 1]],
    [[0, 0, 1],
     [1, 1, 1]],
    [[0, 1, 1],
     [1, 1, 0]],
    [[0, 1, 0],
     [1, 1, 1]],
    [[1, 1, 0],
     [0, 1, 1]] ]

def PIECES_COLORS : List String :=
  ["#E0E722", "#4D4DFF", "#C724B1", "#FFAD00", "#44D62C", "#DB3EB1", "#D22730"]

/-! ## Data model of `useTetrisGame.js` -/

structure Position where
  x : Int
  y : Int
deriving DecidableEq, Repr

structure Piece where
  position : Position
  shape : Shape
  color : String
deriving DecidableEq, Repr

/-- The object held by `gameStateRef`; `piece` is `null` before the first start. -/
structure GameState where
  board : Board
  piece : Option Piece
  dropCounter : Int
  lastTime : Int
  running : Bool
  score : Int
  level : Int
  linesCleared : Int
  combo : Int
  dropInterval : Int
deriving DecidableEq, Repr

/-- A board with `BOARD_HEIGHT` rows of `BOARD_WIDTH` cells each. -/
def WellFormed (board : Board) : Prop :=
  (board.length : Int) = BOARD_HEIGHT ∧ ∀ row ∈ board, (row.length : Int) = BOARD_WIDTH

instance (board : Board) : Decidable (WellFormed board) := by
  unfold WellFormed; infer_instance

/-! ## `checkCollision` -/

/-- Outcome of one run of `checkCollision`: `reads` lists, in evaluation order, the index
pairs `(boardY, boardX)` at which the expression `board[boardY][boardX]` was evaluated;
`value` is the returned boolean, or `none` when `board[boardY]` was `undefined` and the
evaluation raised a `TypeError`. -/
structure Scan where
  reads : List (Int × Int)
  value : Option Bool
deriving DecidableEq, Repr

/-- Records one more board read in front of the reads of the rest of the run. -/
def Scan.after (idx : Int × Int) (s : Scan) : Scan :=
  ⟨idx :: s.reads, s.value⟩

/-- The inner loop `for (let x = 0; x < piece.shape[y].length; x++)` of `checkCollision`,
from column `x` on, over the remaining cells of shape row `y`. The value `some false`
means that the loop ran to its end without `return true`. The `||` chain is evaluated
left to right, so the board is read only when the four bound tests are false; a cell
`undefined` (row too short) satisfies `!== 0`. -/
def checkCollisionRow (board : Board) (position : Position) (y : Nat) :
    List Int → Nat → Scan
  | [], _ => ⟨[], some false⟩
  | value :: rest, x =>
    if value ≠ 0 then
      let boardY : Int := (y : Int) + position.y
      let boardX : Int := (x : Int) + position.x
      if boardY < 0 ∨ boardY ≥ BOARD_HEIGHT ∨ boardX < 0 ∨ boardX ≥ BOARD_WIDTH then
        ⟨[], some true⟩
      else
        match board[boardY.toNat]? with
        | none => ⟨[(boardY, boardX)], none⟩
        | some row =>
          if row[boardX.toNat]? ≠ some 0 then ⟨[(boardY, boardX)], some true⟩
          else (checkCollisionRow board position y rest (x + 1)).after (boardY, boardX)
    else checkCollisionRow board position y rest (x + 1)

/-- The outer loop `for (let y = 0; y < piece.shape.length; y++)` of `checkCollision`,
from row `y` on. -/
def checkCollisionRows (board : Board) (position : Position) : Shape → Nat → Scan
  | [], _ => ⟨[], some false⟩
  | row :: rest, y =>
    let r := checkCollisionRow board position y row 0
    match r.value with
    | some false =>
      let r2 := checkCollisionRows board position rest (y + 1)
      ⟨r.reads ++ r2.reads, r2.value⟩
    | _ => r

/-- The instrumented run of `checkCollision(piece, board)`. -/
def checkCollisionScan (piece : Piece) (board : Board) : Scan :=
  checkCollisionRows board piece.position piece.shape 0

/-- Embedding of `checkCollision(piece, board)`: the returned boolean. -/
def checkCollision (piece : Piece) (board : Board) : Option Bool :=
  (checkCollisionScan piece board).value

/-- An occupied cell of the piece (value `!= 0` at relative `(x, y)`) whose absolute cell
`(position.x + x, position.y + y)` is outside the board or on a board cell `!= 0`. -/
def Blocked (piece : Piece) (board : Board) (y x : Nat) : Prop :=
  ∃ (srow : List Int) (v : Int), piece.shape[y]? = some srow ∧ srow[x]? = some v ∧ v ≠ 0 ∧
    ((y : Int) + piece.position.y < 0 ∨ (y : Int) + piece.position.y ≥ 30 ∨
     (x : Int) + piece.position.x < 0 ∨ (x : Int) + piece.position.x ≥ 14 ∨
     ∃ (brow : List Int) (c : Int),
       board[((y : Int) + piece.position.y).toNat]? = some brow ∧
       brow[((x : Int) + piece.position.x).toNat]? = some c ∧ c ≠ 0)

/-- The absolute cell `(boardY, boardX)` is outside the board or on a cell `!= 0`. -/
def Bad (board : Board) (boardY boardX : Int) : Prop :=
  boardY < 0 ∨ boardY ≥ 30 ∨ boardX < 0 ∨ boardX ≥ 14 ∨
    ∃ (brow : List Int) (c : Int),
      board[boardY.toNat]? = some brow ∧ brow[boardX.toNat]? = some c ∧ c ≠ 0

/-- An index pair that addresses a cell of the board. -/
def InBoard (board : Board) (idx : Int × Int) : Prop :=
  0 ≤ idx.1 ∧ 0 ≤ idx.2 ∧ ∃ row, board[idx.1.toNat]? = some row ∧ idx.2.toNat < row.length

/-! ## `utils/gameLogic.js` -/

/-- Embedding of `createBoard(width, height)`:
`Array.from({ length: height }, () => Array(width).fill(0))`. -/
def createBoard (width height : Nat) : Board :=
  List.replicate height (List.replicate width 0)

/-- The inner `matrix.map((row) => row[index])` of `rotateMatrix`: column `index` of the
matrix, top to bottom; `none` when some row has no cell at `index` (the JavaScript value
would contain `undefined`, which is not a cell). -/
def column (index : Nat) : Shape → Option (List Int)
  | [] => some []
  | row :: rest =>
    match row[index]?, column index rest with
    | some v, some vs => some (v :: vs)
    | _, _ => none

/-- The outer `matrix[0].map((_, index) => ...)` of `rotateMatrix`, over the indices
`index, index + 1, ...` (`count` of them): each index gives the reversed column. -/
def rotateColumns (matrix : Shape) : Nat → Nat → Option Shape
  | 0, _ => some []
  | count + 1, index =>
    match column index matrix, rotateColumns matrix count (index + 1) with
    | some col, some cols => some (col.reverse :: cols)
    | _, _ => none

/-- Embedding of `rotateMatrix(matrix)`:
`matrix[0].map((_, index) => matrix.map((row) => row[index]).reverse())`.
`none` when `matrix[0]` is `undefined` (a `TypeError`) or a row is shorter than row 0. -/
def rotateMatrix (matrix : Shape) : Option Shape :=
  match matrix with
  | [] => none
  | row0 :: _ => rotateColumns matrix row0.length 0

/-- Embedding of `getDropInterval(level)`: `Math.max(1000 - (level - 1) * 100, 200)`. -/
def getDropInterval (level : Int) : Int :=
  max (1000 - (level - 1) * 100) 200

/-- The lookup `scoreTable[rowsRemoved]` in `{ 1: 100, 2: 300, 3: 500, 4: 800 }`;
`none` is `undefined`. -/
def scoreTable (rowsRemoved : Int) : Option Int :=
  if rowsRemoved = 1 then some 100
  else if rowsRemoved = 2 then some 300
  else if rowsRemoved = 3 then some 500
  else if rowsRemoved = 4 then some 800
  else none

/-- Embedding of `calculateScore(rowsRemoved, level, combo)`. The operator `||` takes its
right operand when the left one is `undefined` (no entry of the table is `0`). -/
def calculateScore (rowsRemoved level combo : Int) : Int :=
  let baseScore := match scoreTable rowsRemoved with
    | some v => v
    | none => rowsRemoved * 200
  let comboBonus := (combo - 1) * 50
  (baseScore + comboBonus) * level

/-! ## `useTetrisGame.js` -/

/-- The initial value of `gameStateRef`. -/
def initialState : GameState :=
  { board := createBoard BOARD_WIDTH.toNat BOARD_HEIGHT.toNat
    piece := none
    dropCounter := 0
    lastTime := 0
    running := false
    score := 0
    level := 1
    linesCleared := 0
    combo := 0
    dropInterval := getDropInterval 1 }

/-- Embedding of `generatePiece()`; `shapeIndex` stands for the drawn value
`Math.floor(Math.random() * PIECES.length)`, which lies in `[0, 7)`. -/
def generatePiece (shapeIndex : Fin 7) : Piece :=
  { position := { x := BOARD_WIDTH / 2 - 2, y := 0 }
    shape := PIECES.get ⟨shapeIndex.val, by have := shapeIndex.isLt; simp [PIECES]⟩
    color := PIECES_COLORS.get
      ⟨shapeIndex.val, by have := shapeIndex.isLt; simp [PIECES_COLORS]⟩ }

/-- The loop `for (let offset of offsets)` of `attemptRotation`, over the remaining
offsets; the pair is the piece and `rotatedSuccessfully`. -/
def kickLoop (board : Board) : List Int → Piece → Bool → Option (Piece × Bool)
  | [], piece, rotatedSuccessfully => some (piece, rotatedSuccessfully)
  | offset :: rest, piece, rotatedSuccessfully =>
    if rotatedSuccessfully then some (piece, rotatedSuccessfully)
    else
      let moved : Piece :=
        { piece with position := { piece.position with x := piece.position.x + offset } }
      match checkCollision moved board with
      | none => none
      | some false => some (moved, true)
      | some true =>
        kickLoop board rest
          { moved with position := { moved.position with x := moved.position.x - offset } }
          rotatedSuccessfully

/-- Embedding of `attemptRotation()`; `none` when `piece` is `null` or a callee raises. -/
def attemptRotation (gameState : GameState) : Option GameState :=
  match gameState.piece with
  | none => none
  | some piece =>
    let originalShape := piece.shape
    match rotateMatrix piece.shape with
    | none => none
    | some rotated =>
      let piece1 : Piece := { piece with shape := rotated }
      let offsets : List Int := [-1, 1, -2, 2]
      match checkCollision piece1 gameState.board with
      | none => none
      | some collided =>
        match kickLoop gameState.board offsets piece1 (!collided) with
        | none => none
        | some (piece2, rotatedSuccessfully) =>
          if !rotatedSuccessfully then
            some { gameState with piece := some { piece2 with shape := originalShape } }
          else some { gameState with piece := some piece2 }

/-- Stands for a slot that JavaScript leaves empty when an assignment past the end
lengthens an array. Such a slot reads as `undefined`, which is `!== 0` for
`checkCollision`, and `every` skips it, so it does not keep a row from being full: in the
functions of the engine it behaves as a cell other than 0. It is neither 0 nor 1. -/
def emptySlot : Int := -1

/-- The assignment `board[boardY][boardX] = 1`. `none` when `board[boardY]` is `undefined`
(a `TypeError`). A cell of the row is overwritten. At or past the end of the row
JavaScript lengthens the row up to the written index, the slots in between staying empty
(`emptySlot`). For a negative `boardX` JavaScript adds a property such as `"-1"` to the
row object and leaves its cells and its length as they are; no function of the engine
reads such a property, so the board is returned as it is. -/
def setCell (board : Board) (boardY boardX : Int) : Option Board :=
  if boardY < 0 then none
  else
    match board[boardY.toNat]? with
    | none => none
    | some row =>
      if boardX < 0 then some board
      else if boardX.toNat < row.length then
        some (board.set boardY.toNat (row.set boardX.toNat 1))
      else
        some (board.set boardY.toNat
          (row ++ List.replicate (boardX.toNat - row.length) emptySlot ++ [1]))

/-- The inner `row.forEach((value, x) => ...)` of `solidifyPiece`, from column `x` on. -/
def solidifyRow (position : Position) (y : Nat) : List Int → Nat → Board → Option Board
  | [], _, board => some board
  | value :: rest, x, board =>
    if value ≠ 0 then
      match setCell board ((y : Int) + position.y) ((x : Int) + position.x) with
      | none => none
      | some board1 => solidifyRow position y rest (x + 1) board1
    else solidifyRow position y rest (x + 1) board

/-- The outer `piece.shape.forEach((row, y) => ...)` of `solidifyPiece`, from row `y` on. -/
def solidifyRows (position : Position) : Shape → Nat → Board → Option Board
  | [], _, board => some board
  | row :: rest, y, board =>
    match solidifyRow position y row 0 board with
    | none => none
    | some board1 => solidifyRows position rest (y + 1) board1

/-- Embedding of `solidifyPiece(handleGameOver)`; `shapeIndex` is the index drawn by the
call of `generatePiece()`. -/
def solidifyPiece (handleGameOver : GameState → GameState) (shapeIndex : Fin 7)
    (gameState : GameState) : Option GameState :=
  match gameState.piece with
  | none => none
  | some piece =>
    match solidifyRows piece.position piece.shape 0 gameState.board with
    | none => none
    | some board1 =>
      let gameState1 : GameState :=
        { gameState with board := board1, piece := some (generatePiece shapeIndex) }
      match checkCollision (generatePiece shapeIndex) board1 with
      | none => none
      | some true => some (handleGameOver gameState1)
      | some false => some gameState1

/-- The loop `for (let y = BOARD_HEIGHT - 1; y >= 0; y--)` of `removeFullRows`, from the
test `y >= 0` on. A full row is removed (`splice`), an empty row is put in front
(`unshift`), and `y++` followed by the loop's `y--` leaves `y` as it is. Each iteration
uses one unit of `fuel`; `none` when `board[y]` is `undefined` (a `TypeError`) or the fuel
is used up. -/
def removeLoop : Nat → Board → Int → Int → Option (Board × Int)
  | 0, _, _, _ => none
  | fuel + 1, board, y, rowsRemoved =>
    if y ≥ 0 then
      match board[y.toNat]? with
      | none => none
      | some row =>
        if row.all (fun cell => cell ≠ 0) then
          removeLoop fuel (List.replicate BOARD_WIDTH.toNat 0 :: board.eraseIdx y.toNat) y
            (rowsRemoved + 1)
        else removeLoop fuel board (y - 1) rowsRemoved
    else some (board, rowsRemoved)

/-- Fuel of the row scan: the index goes down at most `BOARD_HEIGHT` times and a row is
removed at most `BOARD_HEIGHT` times (a row put in front is never full), and one more
iteration leaves the loop. -/
def scanFuel : Nat := 2 * BOARD_HEIGHT.toNat + 1

/-- Embedding of `removeFullRows()`: the new state and the returned `rowsRemoved`.
For a number `combo || 0` is `combo`. -/
def removeFullRows (gameState : GameState) : Option (GameState × Int) :=
  match removeLoop scanFuel gameState.board (BOARD_HEIGHT - 1) 0 with
  | none => none
  | some (board1, rowsRemoved) =>
    let gameState1 : GameState := { gameState with board := board1 }
    if rowsRemoved > 0 then
      let combo := gameState1.combo + 1
      let score := gameState1.score + calculateScore rowsRemoved gameState1.level combo
      let linesCleared := gameState1.linesCleared + rowsRemoved
      let newLevel := linesCleared / 10 + 1
      if newLevel > gameState1.level then
        some ({ gameState1 with combo := combo, score := score, linesCleared := linesCleared,
                                level := newLevel, dropInterval := getDropInterval newLevel },
              rowsRemoved)
      else
        some ({ gameState1 with combo := combo, score := score, linesCleared := linesCleared },
              rowsRemoved)
    else some ({ gameState1 with combo := 0 }, rowsRemoved)

/-! ## `TetrisGame.jsx`: the engine part (the display state and the canvas are left out) -/

/-- Embedding of `handleGameOver()`. -/
def handleGameOver (gameState : GameState) : GameState :=
  { gameState with running := false, score := 0, linesCleared := 0, combo := 0, level := 1,
                   dropInterval := 1000 }

/-- The sequence `piece.position.y++; if (checkCollision(...)) { piece.position.y--;
solidifyPiece(handleGameOver); removeFullRows(); ... }` shared by `updateGame` and the
`ArrowDown` case of `handleKeyDown`. -/
def dropStep (shapeIndex : Fin 7) (gameState : GameState) : Option GameState :=
  match gameState.piece with
  | none => none
  | some piece =>
    let moved : Piece :=
      { piece with position := { piece.position with y := piece.position.y + 1 } }
    match checkCollision moved gameState.board with
    | none => none
    | some false => some { gameState with piece := some moved }
    | some true =>
      let back : Piece :=
        { moved with position := { moved.position with y := moved.position.y - 1 } }
      match solidifyPiece handleGameOver shapeIndex { gameState with piece := some back } with
      | none => none
      | some gameState1 =>
        match removeFullRows gameState1 with
        | none => none
        | some (gameState2, _) => some gameState2

/-- Embedding of `updateGame(time)`; times are whole milliseconds. -/
def updateGame (time : Int) (shapeIndex : Fin 7) (gameState : GameState) :
    Option GameState :=
  if !gameState.running then some gameState
  else
    let deltaTime := time - gameState.lastTime
    let gameState1 : GameState :=
      { gameState with lastTime := time, dropCounter := gameState.dropCounter + deltaTime }
    if gameState1.dropCounter > gameState1.dropInterval then
      match dropStep shapeIndex gameState1 with
      | none => none
      | some gameState2 => some { gameState2 with dropCounter := 0 }
    else some gameState1

/-- The values of `event.key` that `handleKeyDown` tells apart. -/
inductive Key where
  | ArrowLeft
  | ArrowRight
  | ArrowDown
  | ArrowUp
  | other
deriving DecidableEq, Repr

/-- The cases `LEFT` and `RIGHT` of `handleKeyDown`: `piece.position.x += dx` and the
opposite assignment when the moved piece collides. -/
def moveStep (dx : Int) (gameState : GameState) : Option GameState :=
  match gameState.piece with
  | none => none
  | some piece =>
    let moved : Piece :=
      { piece with position := { piece.position with x := piece.position.x + dx } }
    match checkCollision moved gameState.board with
    | none => none
    | some true =>
      some { gameState with
        piece := some { moved with position := { moved.position with x := moved.position.x - dx } } }
    | some false => some { gameState with piece := some moved }

/-- Embedding of `handleKeyDown(event)`. -/
def handleKeyDown (key : Key) (shapeIndex : Fin 7) (gameState : GameState) :
    Option GameState :=
  if !gameState.running then some gameState
  else
    match key with
    | Key.ArrowLeft => moveStep (-1) gameState
    | Key.ArrowRight => moveStep 1 gameState
    | Key.ArrowDown =>
      match dropStep shapeIndex gameState with
      | none => none
      | some gameState1 => some { gameState1 with dropCounter := 0 }
    | Key.ArrowUp => attemptRotation gameState
    | Key.other => some gameState

/-- The state initialisation of the start effect (`useEffect` on `gameStarted`). -/
def start (shapeIndex : Fin 7) (gameState : GameState) : GameState :=
  { gameState with
    board := List.replicate BOARD_HEIGHT.toNat (List.replicate BOARD_WIDTH.toNat 0)
    piece := some (generatePiece shapeIndex)
    dropCounter := 0
    lastTime := 0
    running := true
    score := 0
    level := 1
    linesCleared := 0
    combo := 0
    dropInterval := 1000 }

/-- States of the session reachable through start, ticks and key events. -/
inductive Reachable : GameState → Prop
  | init : Reachable initialState
  | start (shapeIndex : Fin 7) (s : GameState) : Reachable s → Reachable (start shapeIndex s)
  | tick (time : Int) (shapeIndex : Fin 7) (s t : GameState) :
      Reachable s → updateGame time shapeIndex s = some t → Reachable t
  | input (key : Key) (shapeIndex : Fin 7) (s t : GameState) :
      Reachable s → handleKeyDown key shapeIndex s = some t → Reachable t

/-! ## Auxiliary notions used in the statements -/

/-- A grid of `h` rows with `w` cells each. -/
def Rect (grid : Shape) (h w : Nat) : Prop :=
  grid.length = h ∧ ∀ row ∈ grid, row.length = w

instance (grid : Shape) (h w : Nat) : Decidable (Rect grid h w) := by
  unfold Rect; infer_instance

/-- The cell `grid[y][x]`, `none` when there is no such cell. -/
def cell (grid : Shape) (y x : Nat) : Option Int :=
  (grid[y]?).bind (fun row => row[x]?)

/-- The piece with `position.x` changed by `d`. -/
def shifted (piece : Piece) (d : Int) : Piece :=
  { piece with position := { piece.position with x := piece.position.x + d } }

/-- A running session on the empty board whose active piece is the upright bar in the
rightmost column. -/
def barAtRightWall : GameState :=
  { board := createBoard 14 30
    piece := some { position := { x := 13, y := 5 }, shape := [[1], [1], [1], [1]],
                    color := "#4D4DFF" }
    dropCounter := 0
    lastTime := 0
    running := true
    score := 0
    level := 1
    linesCleared := 0
    combo := 0
    dropInterval := 1000 }

/-- A running session on the empty board whose active piece is the upright bar two
columns left of the rightmost column. -/
def barNearRightWall : GameState :=
  { barAtRightWall with
    piece := some { position := { x := 11, y := 5 }, shape := [[1], [1], [1], [1]],
                    color := "#4D4DFF" } }

/-- The test `board[y].every((cell) => cell !== 0)`: every cell of the row is `!= 0`. -/
def isFull (row : List Int) : Bool :=
  row.all (fun cell => cell ≠ 0)

/-- The row `Array(BOARD_WIDTH).fill(0)` of 14 zero cells. -/
def zeroRow : List Int := List.replicate 14 0

/-- A board of 30 rows by 14 cells whose rows 27 and 29 are full, with one cell set in
row 26 and a half filled row 28. -/
def twoFullRows : Board :=
  List.replicate 26 zeroRow ++
    [[0, 0, 0, 1, 0, 0, 0, 0, 0, 0, 0, 0, 0, 0],
     List.replicate 14 1,
     [1, 1, 1, 1, 1, 1, 1, 0, 0, 0, 0, 0, 0, 0],
     List.replicate 14 1]

/-- A session at 9 cleared lines whose board is `twoFullRows`. -/
def twoFullRowsState : GameState :=
  { board := twoFullRows
    piece := some { position := { x := 5, y := 0 }, shape := [[1, 1], [1, 1]],
                    color := "#E0E722" }
    dropCounter := 0
    lastTime := 0
    running := true
    score := 700
    level := 1
    linesCleared := 9
    combo := 1
    dropInterval := 1000 }

/-- The counter update of `removeFullRows` for `rowsRemoved > 0`, as the specification
words it: the combo goes up by one, the score by `calculateScore` at the old level and the
new combo, the lines by `rowsRemoved`, and the level and the drop interval follow when
`floor(linesCleared / 10) + 1` exceeds the level. -/
def ScoredClear (gs gs2 : GameState) (k : Int) : Prop :=
  gs2.combo = gs.combo + 1 ∧
  gs2.score = gs.score + calculateScore k gs.level (gs.combo + 1) ∧
  gs2.linesCleared = gs.linesCleared + k ∧
  (((gs.linesCleared + k) / 10 + 1 > gs.level ∧
      gs2.level = (gs.linesCleared + k) / 10 + 1 ∧
      gs2.dropInterval = max (1000 - ((gs.linesCleared + k) / 10 + 1 - 1) * 100) 200) ∨
   (¬ (gs.linesCleared + k) / 10 + 1 > gs.level ∧
      gs2.level = gs.level ∧ gs2.dropInterval = gs.dropInterval))

/-- A running session about to top out: row 0 is empty, row 1 is full but for columns 5
and 6, the rows below are full but for column 0, and the square piece rests in rows 0 and
1 at columns 5 and 6, where it will complete row 1. -/
def topOutWithFullRow : GameState :=
  { board :=
      zeroRow ::
      [1, 1, 1, 1, 1, 0, 0, 1, 1, 1, 1, 1, 1, 1] ::
      List.replicate 28 [0, 1, 1, 1, 1, 1, 1, 1, 1, 1, 1, 1, 1, 1]
    piece := some (generatePiece 0)
    dropCounter := 990
    lastTime := 5000
    running := true
    score := 1200
    level := 1
    linesCleared := 8
    combo := 0
    dropInterval := 1000 }

/-- The counters that `handleGameOver` resets, with the running flag in front:
`(running, score, level, combo, linesCleared, dropInterval)`. -/
def counters (gs : GameState) : Bool × Int × Int × Int × Int × Int :=
  (gs.running, gs.score, gs.level, gs.combo, gs.linesCleared, gs.dropInterval)

/-- The relation between lines, level and drop interval that the specification states:
`level = floor(linesCleared / 10) + 1` and
`dropInterval = max(1000 - (level - 1) * 100, 200)`. -/
def LevelInvariant (gs : GameState) : Prop :=
  gs.level = gs.linesCleared / 10 + 1 ∧
  gs.dropInterval = max (1000 - (gs.level - 1) * 100) 200

instance (gs : GameState) : Decidable (LevelInvariant gs) := by
  unfold LevelInvariant; infer_instance

/-- The piece with `position.y` increased by one. -/
def lowered (piece : Piece) : Piece :=
  { piece with position := { piece.position with y := piece.position.y + 1 } }

/-- The state with `lastTime` and `dropCounter` replaced. -/
def withClock (lastTime dropCounter : Int) (gs : GameState) : GameState :=
  { gs with lastTime := lastTime, dropCounter := dropCounter }

/-- Width of the bounding box of a catalog shape: the length of its first row. -/
def shapeWidth (shape : Shape) : Int :=
  ((shape.headD []).length : Int)

/-- Horizontal centring on the 14 columns: the free columns to the left of the bounding
box (`x`) and to its right (`14 - x - shapeWidth`) differ by at most one. -/
def Centred (piece : Piece) : Prop :=
  |piece.position.x - (14 - piece.position.x - shapeWidth piece.shape)| ≤ 1

instance (piece : Piece) : Decidable (Centred piece) := by
  unfold Centred; infer_instance

/-- Every cell of the board is 0 or 1. -/
def Binary (board : Board) : Prop :=
  ∀ row ∈ board, ∀ c ∈ row, c = 0 ∨ c = 1

instance (board : Board) : Decidable (Binary board) := by
  unfold Binary; infer_instance

/-- The board shape: 30 rows of 14 cells, each cell 0 or 1. -/
def BoardOk (board : Board) : Prop :=
  WellFormed board ∧ Binary board

instance (board : Board) : Decidable (BoardOk board) := by
  unfold BoardOk; infer_instance

/-- The board cell in row `row` and column `col` is the absolute position
`(position.x + x, position.y + y)` of an occupied cell (value `!= 0`) of the piece. -/
def Occupies (piece : Piece) (row col : Nat) : Prop :=
  ∃ (y x : Nat) (srow : List Int) (v : Int), piece.shape[y]? = some srow ∧
    srow[x]? = some v ∧ v ≠ 0 ∧
    (row : Int) = (y : Int) + piece.position.y ∧ (col : Int) = (x : Int) + piece.position.x

/-- The board cell in row `row` and column `col` exists and is `!= 0`. -/
def Filled (board : Board) (row col : Nat) : Prop :=
  ∃ v, cell board row col = some v ∧ v ≠ 0

/-- A running session in which a lock clears the bottom row under an overhang: row 0 holds
a lying bar in columns 7 to 10, carried by a tower in column 10 (rows 1 to 28); row 29 is
full but for columns 0 and 1, and the square rests on the floor in columns 0 and 1. -/
def clearUnderOverhang : GameState :=
  { board :=
      [0, 0, 0, 0, 0, 0, 0, 1, 1, 1, 1, 0, 0, 0] ::
      (List.replicate 28 [0, 0, 0, 0, 0, 0, 0, 0, 0, 0, 1, 0, 0, 0] ++
        [[0, 0, 1, 1, 1, 1, 1, 1, 1, 1, 1, 1, 1, 1]])
    piece := some { position := { x := 0, y := 28 }, shape := [[1, 1], [1, 1]],
                    color := "#E0E722" }
    dropCounter := 400
    lastTime := 7000
    running := true
    score := 300
    level := 1
    linesCleared := 2
    combo := 0
    dropInterval := 1000 }

/-- What the validity claim looks at after a call: the running flag and the result of
`checkCollision` for the active piece on the board of the returned state. -/
def pieceCheck (gs : GameState) : Bool × Option Bool :=
  (gs.running, gs.piece.bind (fun piece => checkCollision piece gs.board))

/-- Every occupied cell of the piece (value `!= 0`) lies in rows 0..29 and columns
0..13. -/
def InBounds (piece : Piece) : Prop :=
  ∀ (j i : Nat) (srow : List Int) (v : Int), piece.shape[j]? = some srow →
    srow[i]? = some v → v ≠ 0 →
    0 ≤ (j : Int) + piece.position.y ∧ (j : Int) + piece.position.y < 30 ∧
    0 ≤ (i : Int) + piece.position.x ∧ (i : Int) + piece.position.x < 14

/-- A grid with at least one row and one column whose rows have the same length. -/
def Rectangular (shape : Shape) : Prop :=
  ∃ (h w : Nat), 1 ≤ h ∧ 1 ≤ w ∧ Rect shape h w

/-- An active piece inside the board with a rectangular shape. -/
def PieceOk (piece : Piece) : Prop :=
  InBounds piece ∧ Rectangular piece.shape

/-- The state of a session between calls: the board has its shape, the active piece, if
any, is inside the board, and a running session has an active piece. -/
def StateOk (gs : GameState) : Prop :=
  BoardOk gs.board ∧ (∀ p, gs.piece = some p → PieceOk p) ∧
  (gs.running = true → ∃ p, gs.piece = some p)

/-- A running session on the empty board whose square sticks out of the board by one
column on the right (columns 13 and 14). -/
def squareAcrossRightWall : GameState :=
  { barAtRightWall with
    piece := some { position := { x := 13, y := 5 }, shape := [[1, 1], [1, 1]],
                    color := "#E0E722" } }

/-! # Theorems -/

/-! ## Collision detection -/

theorem wellFormed_cell (board : Board) (hwf : WellFormed board) (boardY boardX : Int)
    (hy0 : 0 ≤ boardY) (hy1 : boardY < 30) (hx0 : 0 ≤ boardX) (hx1 : boardX < 14) :
    ∃ (row : List Int) (c : Int), board[boardY.toNat]? = some row ∧ row.length = 14 ∧
      row[boardX.toNat]? = some c := by
  obtain ⟨hlen, hrows⟩ := hwf
  simp only [BOARD_HEIGHT, BOARD_WIDTH] at hlen hrows
  have hY : boardY.toNat < board.length := by omega
  have hrow : (board[boardY.toNat]).length = 14 := by
    have := hrows _ (List.getElem_mem hY)
    omega
  have hX : boardX.toNat < (board[boardY.toNat]).length := by omega
  exact ⟨board[boardY.toNat], (board[boardY.toNat])[boardX.toNat],
    List.getElem?_eq_getElem hY, hrow, List.getElem?_eq_getElem hX⟩

theorem checkCollisionRow_spec (board : Board) (hwf : WellFormed board) (position : Position)
    (y : Nat) (cells : List Int) (x : Nat) :
    ((checkCollisionRow board position y cells x).value = some true ↔
      ∃ (i : Nat) (v : Int), cells[i]? = some v ∧ v ≠ 0 ∧
        Bad board ((y : Int) + position.y) (((x + i : Nat) : Int) + position.x)) ∧
    ((checkCollisionRow board position y cells x).value = some false ↔
      ¬ ∃ (i : Nat) (v : Int), cells[i]? = some v ∧ v ≠ 0 ∧
        Bad board ((y : Int) + position.y) (((x + i : Nat) : Int) + position.x)) ∧
    (∀ idx ∈ (checkCollisionRow board position y cells x).reads, InBoard board idx) := by
  induction cells generalizing x with
  | nil => simp [checkCollisionRow]
  | cons value rest ih =>
    obtain ⟨ih1, ih2, ih3⟩ := ih (x + 1)
    have shift : (∃ (i : Nat) (v : Int), (value :: rest)[i]? = some v ∧ v ≠ 0 ∧
          Bad board ((y : Int) + position.y) (((x + i : Nat) : Int) + position.x)) ↔
        ((value ≠ 0 ∧ Bad board ((y : Int) + position.y) ((x : Int) + position.x)) ∨
          ∃ (i : Nat) (v : Int), rest[i]? = some v ∧ v ≠ 0 ∧
            Bad board ((y : Int) + position.y) (((x + 1 + i : Nat) : Int) + position.x)) := by
      constructor
      · rintro ⟨i, v, hi, hv, hb⟩
        cases i with
        | zero =>
          simp only [List.getElem?_cons_zero, Option.some.injEq] at hi
          subst hi
          exact Or.inl ⟨hv, by simpa using hb⟩
        | succ j =>
          simp only [List.getElem?_cons_succ] at hi
          refine Or.inr ⟨j, v, hi, hv, ?_⟩
          have : x + 1 + j = x + (j + 1) := by omega
          rw [this]; exact hb
      · rintro (⟨hv, hb⟩ | ⟨j, v, hi, hv, hb⟩)
        · exact ⟨0, value, by simp, hv, by simpa using hb⟩
        · refine ⟨j + 1, v, by simpa using hi, hv, ?_⟩
          have : x + 1 + j = x + (j + 1) := by omega
          rw [← this]; exact hb
    rw [shift]
    unfold checkCollisionRow
    by_cases hv : value = 0
    · simp only [hv, ne_eq, not_true_eq_false, if_false, false_and, false_or]
      exact ⟨ih1, ih2, ih3⟩
    · simp only [ne_eq, hv, not_false_eq_true, if_true, true_and]
      by_cases hout : (y : Int) + position.y < 0 ∨ (y : Int) + position.y ≥ BOARD_HEIGHT ∨
          (x : Int) + position.x < 0 ∨ (x : Int) + position.x ≥ BOARD_WIDTH
      · have hbad : Bad board ((y : Int) + position.y) ((x : Int) + position.x) := by
          simp only [BOARD_HEIGHT, BOARD_WIDTH] at hout
          unfold Bad
          tauto
        simp [hout, hbad]
      · rw [if_neg hout]
        simp only [BOARD_HEIGHT, BOARD_WIDTH, not_or, not_lt, ge_iff_le, not_le] at hout
        obtain ⟨hy0, hy1, hx0, hx1⟩ := hout
        obtain ⟨row, c, hrow, hlen, hc⟩ :=
          wellFormed_cell board hwf _ _ hy0 hy1 hx0 hx1
        have hX : ((x : Int) + position.x).toNat < row.length := by omega
        have hin : InBoard board ((y : Int) + position.y, (x : Int) + position.x) :=
          ⟨hy0, hx0, row, hrow, hX⟩
        simp only [hrow, hc]
        by_cases hc0 : c = 0
        · have hnb : ¬ Bad board ((y : Int) + position.y) ((x : Int) + position.x) := by
            unfold Bad
            rintro (h | h | h | h | ⟨brow, d, h1, h2, h3⟩)
            · omega
            · omega
            · omega
            · omega
            · rw [hrow] at h1
              cases h1
              rw [hc] at h2
              cases h2
              exact h3 hc0
          simp only [hc0, ne_eq, not_true_eq_false, if_false, Scan.after, hnb, false_or]
          refine ⟨ih1, ih2, ?_⟩
          intro idx hidx
          rcases List.mem_cons.mp hidx with h | h
          · rw [h]; exact hin
          · exact ih3 idx h
        · have hbad : Bad board ((y : Int) + position.y) ((x : Int) + position.x) := by
            unfold Bad
            exact Or.inr (Or.inr (Or.inr (Or.inr ⟨row, c, hrow, hc, hc0⟩)))
          have hne : ¬ (some c = some (0 : Int)) := by simpa using hc0
          simp only [ne_eq, hne, not_false_eq_true, if_true, hbad, true_or, not_true_eq_false,
            iff_false, true_and]
          refine ⟨by simp, ?_⟩
          intro idx hidx
          simp only [List.mem_singleton] at hidx
          rw [hidx]; exact hin

theorem checkCollisionRows_spec (board : Board) (hwf : WellFormed board)
    (position : Position) (rows : Shape) (y : Nat) :
    ((checkCollisionRows board position rows y).value = some true ↔
      ∃ (j i : Nat) (srow : List Int) (v : Int), rows[j]? = some srow ∧ srow[i]? = some v ∧
        v ≠ 0 ∧ Bad board (((y + j : Nat) : Int) + position.y) ((i : Int) + position.x)) ∧
    ((checkCollisionRows board position rows y).value = some false ↔
      ¬ ∃ (j i : Nat) (srow : List Int) (v : Int), rows[j]? = some srow ∧ srow[i]? = some v ∧
        v ≠ 0 ∧ Bad board (((y + j : Nat) : Int) + position.y) ((i : Int) + position.x)) ∧
    (∀ idx ∈ (checkCollisionRows board position rows y).reads, InBoard board idx) := by
  induction rows generalizing y with
  | nil => simp [checkCollisionRows]
  | cons row rest ih =>
    obtain ⟨ih1, ih2, ih3⟩ := ih (y + 1)
    obtain ⟨r1, r2, r3⟩ := checkCollisionRow_spec board hwf position y row 0
    simp only [Nat.zero_add] at r1 r2
    have shift : (∃ (j i : Nat) (srow : List Int) (v : Int), (row :: rest)[j]? = some srow ∧
          srow[i]? = some v ∧ v ≠ 0 ∧
          Bad board (((y + j : Nat) : Int) + position.y) ((i : Int) + position.x)) ↔
        ((∃ (i : Nat) (v : Int), row[i]? = some v ∧ v ≠ 0 ∧
            Bad board ((y : Int) + position.y) ((i : Int) + position.x)) ∨
          ∃ (j i : Nat) (srow : List Int) (v : Int), rest[j]? = some srow ∧
            srow[i]? = some v ∧ v ≠ 0 ∧
            Bad board (((y + 1 + j : Nat) : Int) + position.y) ((i : Int) + position.x)) := by
      constructor
      · rintro ⟨j, i, srow, v, hj, hi, hv, hb⟩
        cases j with
        | zero =>
          simp only [List.getElem?_cons_zero, Option.some.injEq] at hj
          subst hj
          exact Or.inl ⟨i, v, hi, hv, by simpa using hb⟩
        | succ k =>
          simp only [List.getElem?_cons_succ] at hj
          refine Or.inr ⟨k, i, srow, v, hj, hi, hv, ?_⟩
          have : y + 1 + k = y + (k + 1) := by omega
          rw [this]; exact hb
      · rintro (⟨i, v, hi, hv, hb⟩ | ⟨k, i, srow, v, hj, hi, hv, hb⟩)
        · exact ⟨0, i, row, v, by simp, hi, hv, by simpa using hb⟩
        · refine ⟨k + 1, i, srow, v, by simpa using hj, hi, hv, ?_⟩
          have : y + 1 + k = y + (k + 1) := by omega
          rw [← this]; exact hb
    rw [shift]
    unfold checkCollisionRows
    simp only []
    rcases hval : (checkCollisionRow board position y row 0).value with _ | b
    · exfalso
      by_cases hex : ∃ (i : Nat) (v : Int), row[i]? = some v ∧ v ≠ 0 ∧
            Bad board ((y : Int) + position.y) ((i : Int) + position.x)
      · rw [r1.mpr hex] at hval; cases hval
      · rw [r2.mpr hex] at hval; cases hval
    · cases b with
      | false =>
        have hno := r2.mp hval
        simp only [hno, false_or]
        refine ⟨ih1, ih2, ?_⟩
        intro idx hidx
        rcases List.mem_append.mp hidx with h | h
        · exact r3 idx h
        · exact ih3 idx h
      | true =>
        have hyes := r1.mp hval
        simp only [hval, hyes, true_or, not_true_eq_false, iff_false, true_and]
        exact ⟨by simp, r3⟩

theorem blocked_iff (piece : Piece) (board : Board) :
    (∃ (y x : Nat), Blocked piece board y x) ↔
      ∃ (j i : Nat) (srow : List Int) (v : Int), piece.shape[j]? = some srow ∧
        srow[i]? = some v ∧ v ≠ 0 ∧
        Bad board ((j : Int) + piece.position.y) ((i : Int) + piece.position.x) := by
  simp only [Blocked, Bad]

theorem checkCollision_blocked (piece : Piece) (board : Board) (hwf : WellFormed board) :
    (checkCollision piece board = some true ↔ ∃ (y x : Nat), Blocked piece board y x) ∧
    (checkCollision piece board = some false ↔ ¬ ∃ (y x : Nat), Blocked piece board y x) := by
  obtain ⟨h1, h2, _⟩ := checkCollisionRows_spec board hwf piece.position piece.shape 0
  simp only [Nat.zero_add] at h1 h2
  unfold checkCollision checkCollisionScan
  rw [blocked_iff]
  exact ⟨h1, h2⟩

theorem checkCollision_total (piece : Piece) (board : Board) (hwf : WellFormed board) :
    ∃ b, checkCollision piece board = some b := by
  obtain ⟨h1, h2⟩ := checkCollision_blocked piece board hwf
  by_cases hex : ∃ (y x : Nat), Blocked piece board y x
  · exact ⟨true, h1.mpr hex⟩
  · exact ⟨false, h2.mpr hex⟩

/-- C1: on a board of 30 rows by 14 cells `checkCollision` returns `true` exactly when some
occupied shape cell maps to an absolute cell outside the board or onto a board cell
`!= 0`, and `false` exactly when no occupied cell does; every index pair at which the run
reads the board addresses a cell of the board. The function returns a boolean only, the
board is an input that it does not change. -/
theorem checkCollision_spec (piece : Piece) (board : Board) (hwf : WellFormed board) :
    (checkCollision piece board = some true ↔ ∃ (y x : Nat), Blocked piece board y x) ∧
    (checkCollision piece board = some false ↔ ¬ ∃ (y x : Nat), Blocked piece board y x) ∧
    (∀ idx ∈ (checkCollisionScan piece board).reads,
      0 ≤ idx.1 ∧ idx.1 < 30 ∧ 0 ≤ idx.2 ∧ idx.2 < 14 ∧ InBoard board idx) := by
  obtain ⟨h1, h2⟩ := checkCollision_blocked piece board hwf
  obtain ⟨_, _, h3⟩ := checkCollisionRows_spec board hwf piece.position piece.shape 0
  refine ⟨h1, h2, ?_⟩
  intro idx hidx
  have hin := h3 idx hidx
  obtain ⟨hy0, hx0, row, hrow, hX⟩ := hin
  obtain ⟨hlen, hrows⟩ := hwf
  simp only [BOARD_HEIGHT, BOARD_WIDTH] at hlen hrows
  have hY : idx.1.toNat < board.length := by
    by_contra hcon
    rw [List.getElem?_eq_none (by omega)] at hrow
    cases hrow
  have hr : row ∈ board := List.getElem?_mem hrow
  have := hrows row hr
  exact ⟨hy0, by omega, hx0, by omega, hy0, hx0, row, hrow, hX⟩

/-- Witness of C1 on the empty board and the first catalog piece at its spawn position. -/
theorem checkCollision_spec_witness :
    WellFormed (createBoard 14 30) ∧
    (checkCollision (generatePiece 0) (createBoard 14 30) = some false ↔
      ¬ ∃ (y x : Nat), Blocked (generatePiece 0) (createBoard 14 30) y x) :=
  ⟨by decide, (checkCollision_spec (generatePiece 0) (createBoard 14 30) (by decide)).2.1⟩

/-! ## Rotation -/

theorem column_spec (index : Nat) (m : Shape) (hall : ∀ row ∈ m, index < row.length) :
    ∃ col, column index m = some col ∧ col.length = m.length ∧
      ∀ y, col[y]? = cell m y index := by
  induction m with
  | nil => exact ⟨[], rfl, rfl, by intro y; simp [cell]⟩
  | cons row rest ih =>
    obtain ⟨col, hcol, hlen, hget⟩ := ih (fun r hr => hall r (List.mem_cons_of_mem _ hr))
    have hi : index < row.length := hall row (List.mem_cons_self _ _)
    refine ⟨row[index] :: col, ?_, by simp [hlen], ?_⟩
    · simp [column, hcol, List.getElem?_eq_getElem hi]
    · intro y
      cases y with
      | zero => simp [cell, List.getElem?_eq_getElem hi]
      | succ k =>
        have := hget k
        simpa [cell] using this

theorem rotateColumns_spec (m : Shape) (count index : Nat)
    (hall : ∀ row ∈ m, index + count ≤ row.length) :
    ∃ res, rotateColumns m count index = some res ∧ res.length = count ∧
      (∀ row ∈ res, row.length = m.length) ∧
      ∀ k, k < count → ∀ b, b < m.length →
        cell res k b = cell m (m.length - 1 - b) (index + k) := by
  induction count generalizing index with
  | zero => exact ⟨[], rfl, rfl, by simp, by intro k hk; omega⟩
  | succ n ih =>
    obtain ⟨cols, hcols, hlen, hrows, hget⟩ :=
      ih (index + 1) (fun r hr => by have := hall r hr; omega)
    obtain ⟨col, hcol, hcl, hcg⟩ :=
      column_spec index m (fun r hr => by have := hall r hr; omega)
    refine ⟨col.reverse :: cols, ?_, by simp [hlen], ?_, ?_⟩
    · simp [rotateColumns, hcol, hcols]
    · intro row hrow
      rcases List.mem_cons.mp hrow with h | h
      · rw [h]; simp [hcl]
      · exact hrows row h
    · intro k hk b hb
      cases k with
      | zero =>
        have hb2 : b < col.length := by omega
        simp only [cell, List.getElem?_cons_zero, Option.some_bind, Nat.add_zero]
        rw [List.getElem?_reverse hb2, hcg, hcl]
        rfl
      | succ j =>
        have := hget j (by omega) b hb
        have e : index + 1 + j = index + (j + 1) := by omega
        rw [e] at this
        simpa [cell] using this

theorem rotateMatrix_cells (m : Shape) (h w : Nat) (hrect : Rect m h w) (hh : 0 < h) :
    ∃ r, rotateMatrix m = some r ∧ Rect r w h ∧
      ∀ a, a < w → ∀ b, b < h → cell r a b = cell m (h - 1 - b) a := by
  obtain ⟨hlen, hrows⟩ := hrect
  cases m with
  | nil => simp at hlen; omega
  | cons row0 rest =>
    have h0 : row0.length = w := hrows row0 (List.mem_cons_self _ _)
    obtain ⟨res, hres, hl, hr, hget⟩ :=
      rotateColumns_spec (row0 :: rest) row0.length 0
        (fun r hr => by have := hrows r hr; omega)
    refine ⟨res, hres, ⟨by omega, fun r hr2 => by rw [hr r hr2, hlen]⟩, ?_⟩
    intro a ha b hb
    have := hget a (by omega) b (by omega)
    rw [hlen] at this
    simpa using this

theorem cell_isSome (g : Shape) (h w : Nat) (hrect : Rect g h w) (y x : Nat) (hy : y < h)
    (hx : x < w) : ∃ v, cell g y x = some v := by
  obtain ⟨hlen, hrows⟩ := hrect
  have hY : y < g.length := by omega
  have hX : x < (g[y]).length := by
    have := hrows _ (List.getElem_mem hY)
    omega
  exact ⟨(g[y])[x], by simp [cell, List.getElem?_eq_getElem hY, List.getElem?_eq_getElem hX]⟩

theorem grid_ext (g1 g2 : Shape) (h w : Nat) (h1 : Rect g1 h w) (h2 : Rect g2 h w)
    (hc : ∀ y, y < h → ∀ x, x < w → cell g1 y x = cell g2 y x) : g1 = g2 := by
  obtain ⟨l1, r1⟩ := h1
  obtain ⟨l2, r2⟩ := h2
  apply List.ext_getElem (by omega)
  intro y hy1 hy2
  have e1 : (g1[y]).length = w := r1 _ (List.getElem_mem hy1)
  have e2 : (g2[y]).length = w := r2 _ (List.getElem_mem hy2)
  apply List.ext_getElem (by omega)
  intro x hx1 hx2
  have := hc y (by omega) x (by omega)
  simp only [cell, List.getElem?_eq_getElem hy1, List.getElem?_eq_getElem hy2,
    Option.some_bind, List.getElem?_eq_getElem hx1, List.getElem?_eq_getElem hx2] at this
  exact Option.some.inj this

/-- C2: four applications of `rotateMatrix` to a rectangular shape with at least one row
and one column all succeed and give back the shape. -/
theorem rotateMatrix_four (s : Shape) (h w : Nat) (hrect : Rect s h w) (hh : 1 ≤ h)
    (hw : 1 ≤ w) :
    (((rotateMatrix s).bind rotateMatrix).bind rotateMatrix).bind rotateMatrix = some s := by
  obtain ⟨r1, e1, d1, c1⟩ := rotateMatrix_cells s h w hrect (by omega)
  obtain ⟨r2, e2, d2, c2⟩ := rotateMatrix_cells r1 w h d1 (by omega)
  obtain ⟨r3, e3, d3, c3⟩ := rotateMatrix_cells r2 h w d2 (by omega)
  obtain ⟨r4, e4, d4, c4⟩ := rotateMatrix_cells r3 w h d3 (by omega)
  simp only [e1, e2, e3, e4, Option.some_bind, Option.some.injEq]
  apply grid_ext r4 s h w d4 hrect
  intro y hy x hx
  rw [c4 y hy x hx, c3 (w - 1 - x) (by omega) y hy, c2 (h - 1 - y) (by omega) (w - 1 - x) (by omega),
    c1 (w - 1 - (w - 1 - x)) (by omega) (h - 1 - y) (by omega)]
  have a1 : h - 1 - (h - 1 - y) = y := by omega
  have a2 : w - 1 - (w - 1 - x) = x := by omega
  rw [a1, a2]

/-- Witness of C2 on the catalog shape `[[1,0,0],[1,1,1]]`. -/
theorem rotateMatrix_four_witness :
    Rect [[1, 0, 0], [1, 1, 1]] 2 3 ∧
    (((rotateMatrix [[1, 0, 0], [1, 1, 1]]).bind rotateMatrix).bind rotateMatrix).bind
      rotateMatrix = some [[1, 0, 0], [1, 1, 1]] :=
  ⟨by decide, rotateMatrix_four [[1, 0, 0], [1, 1, 1]] 2 3 (by decide) (by decide) (by decide)⟩

/-- C3: for a rectangular shape with `h >= 1` rows and `w >= 1` columns `rotateMatrix`
returns a grid of `w` rows and `h` columns with `result[x][h-1-y] = shape[y][x]` for all
`y < h` and `x < w` (both sides are cells); the shape is an input that the function does
not change; the catalog bar `[[1,1,1,1]]` rotates to `[[1],[1],[1],[1]]`. -/
theorem rotateMatrix_spec (shape : Shape) (h w : Nat) (hrect : Rect shape h w) (hh : 1 ≤ h)
    (_hw : 1 ≤ w) :
    (∃ result, rotateMatrix shape = some result ∧ Rect result w h ∧
      ∀ y, y < h → ∀ x, x < w →
        ∃ v, cell shape y x = some v ∧ cell result x (h - 1 - y) = some v) ∧
    rotateMatrix [[1, 1, 1, 1]] = some [[1], [1], [1], [1]] := by
  refine ⟨?_, by decide⟩
  obtain ⟨r, e, d, c⟩ := rotateMatrix_cells shape h w hrect (by omega)
  refine ⟨r, e, d, ?_⟩
  intro y hy x hx
  obtain ⟨v, hv⟩ := cell_isSome shape h w hrect y x hy hx
  refine ⟨v, hv, ?_⟩
  rw [c x hx (h - 1 - y) (by omega)]
  have a1 : h - 1 - (h - 1 - y) = y := by omega
  rw [a1, hv]

/-- Witness of C3 on the catalog shape `[[0,1,1],[1,1,0]]`. -/
theorem rotateMatrix_spec_witness :
    Rect [[0, 1, 1], [1, 1, 0]] 2 3 ∧
    ∃ result, rotateMatrix [[0, 1, 1], [1, 1, 0]] = some result ∧ Rect result 3 2 ∧
      ∀ y, y < 2 → ∀ x, x < 3 →
        ∃ v, cell [[0, 1, 1], [1, 1, 0]] y x = some v ∧ cell result x (2 - 1 - y) = some v :=
  ⟨by decide,
    (rotateMatrix_spec [[0, 1, 1], [1, 1, 0]] 2 3 (by decide) (by decide) (by decide)).1⟩

/-! ## Rotation with horizontal kicks -/

theorem shifted_back (q : Piece) (e : Int) :
    ({ position := { x := q.position.x + e - e, y := q.position.y }, shape := q.shape,
       color := q.color } : Piece) = q := by
  cases q with
  | mk position shape color =>
    cases position
    simp

theorem kickLoop_all (board : Board) (offsets : List Int) (q : Piece)
    (hall : ∀ e ∈ offsets, checkCollision (shifted q e) board = some true) :
    kickLoop board offsets q false = some (q, false) := by
  induction offsets with
  | nil => rfl
  | cons e rest ih =>
    have he := hall e (List.mem_cons_self _ _)
    simp only [shifted] at he
    simp only [kickLoop, he, Bool.false_eq_true, if_false, shifted_back]
    exact ih (fun e2 h2 => hall e2 (List.mem_cons_of_mem _ h2))

theorem kickLoop_first (board : Board) (pre : List Int) (d : Int) (post : List Int)
    (q : Piece) (hpre : ∀ e ∈ pre, checkCollision (shifted q e) board = some true)
    (hd : checkCollision (shifted q d) board = some false) :
    kickLoop board (pre ++ d :: post) q false = some (shifted q d, true) := by
  induction pre with
  | nil =>
    simp only [shifted] at hd
    simp [kickLoop, hd, shifted]
  | cons e rest ih =>
    have he := hpre e (List.mem_cons_self _ _)
    simp only [shifted] at he
    simp only [List.cons_append, kickLoop, he, Bool.false_eq_true, if_false, shifted_back]
    exact ih (fun e2 h2 => hpre e2 (List.mem_cons_of_mem _ h2))

theorem kickLoop_done (board : Board) (offsets : List Int) (q : Piece) :
    kickLoop board offsets q true = some (q, true) := by
  cases offsets <;> simp [kickLoop]

theorem kickLoop_frame (board : Board) (offsets : List Int) (q : Piece) (ok : Bool)
    (q2 : Piece) (ok2 : Bool) (h : kickLoop board offsets q ok = some (q2, ok2)) :
    q2.position.y = q.position.y ∧ q2.shape = q.shape := by
  cases ok with
  | true =>
    rw [kickLoop_done] at h
    simp only [Option.some.injEq, Prod.mk.injEq] at h
    rw [← h.1]; exact ⟨rfl, rfl⟩
  | false =>
    induction offsets generalizing q with
    | nil =>
      simp only [kickLoop, Option.some.injEq, Prod.mk.injEq] at h
      rw [← h.1]; exact ⟨rfl, rfl⟩
    | cons e rest ih =>
      unfold kickLoop at h
      simp only [Bool.false_eq_true, if_false] at h
      rcases hc : checkCollision
        { position := { x := q.position.x + e, y := q.position.y }, shape := q.shape,
          color := q.color } board with _ | b
      · rw [hc] at h; cases h
      · rw [hc] at h
        cases b with
        | false =>
          simp only [Option.some.injEq, Prod.mk.injEq] at h
          rw [← h.1]; exact ⟨rfl, rfl⟩
        | true =>
          simp only [shifted_back] at h
          exact ih q h

theorem kickLoop_total (board : Board) (hwf : WellFormed board) (offsets : List Int)
    (q : Piece) (ok : Bool) : ∃ res, kickLoop board offsets q ok = some res := by
  cases ok with
  | true => exact ⟨_, kickLoop_done board offsets q⟩
  | false =>
    induction offsets generalizing q with
    | nil => exact ⟨_, rfl⟩
    | cons e rest ih =>
      unfold kickLoop
      simp only [Bool.false_eq_true, if_false]
      obtain ⟨b, hb⟩ := checkCollision_total
        { position := { x := q.position.x + e, y := q.position.y }, shape := q.shape,
          color := q.color } board hwf
      rw [hb]
      cases b with
      | false => exact ⟨_, rfl⟩
      | true => exact ih _

/-- C4: with `r = rotateMatrix(s)`, `attemptRotation` (1) keeps the rotated piece in place
when it does not collide; (2) otherwise moves it by the first offset of `[-1, 1, -2, 2]`
at which the rotated piece does not collide; (3) when every offset collides, leaves the
session as it was (original shape and position). Whenever it returns, the board and
`position.y` are unchanged, and on a 30 by 14 board it always returns. -/
theorem attemptRotation_spec (gs : GameState) (p : Piece) (r : Shape)
    (hp : gs.piece = some p) (hr : rotateMatrix p.shape = some r) :
    (checkCollision { p with shape := r } gs.board = some false →
      attemptRotation gs = some { gs with piece := some { p with shape := r } }) ∧
    (checkCollision { p with shape := r } gs.board = some true →
      ∀ (pre : List Int) (d : Int) (post : List Int), [-1, 1, -2, 2] = pre ++ d :: post →
        (∀ e ∈ pre, checkCollision (shifted { p with shape := r } e) gs.board = some true) →
        checkCollision (shifted { p with shape := r } d) gs.board = some false →
        attemptRotation gs = some { gs with piece := some (shifted { p with shape := r } d) }) ∧
    (checkCollision { p with shape := r } gs.board = some true →
      (∀ e ∈ ([-1, 1, -2, 2] : List Int),
        checkCollision (shifted { p with shape := r } e) gs.board = some true) →
      attemptRotation gs = some gs) ∧
    (∀ gs2, attemptRotation gs = some gs2 →
      gs2.board = gs.board ∧ ∃ p2, gs2.piece = some p2 ∧ p2.position.y = p.position.y) ∧
    (WellFormed gs.board → ∃ gs2, attemptRotation gs = some gs2) := by
  refine ⟨?_, ?_, ?_, ?_, ?_⟩
  · intro h0
    simp [attemptRotation, hp, hr, h0, kickLoop]
  · intro h0 pre d post hsplit hpre hd
    have hk := kickLoop_first gs.board pre d post { p with shape := r } hpre hd
    rw [← hsplit] at hk
    simp [attemptRotation, hp, hr, h0, hk]
  · intro h0 hall
    have hk := kickLoop_all gs.board [-1, 1, -2, 2] { p with shape := r } hall
    simp only [attemptRotation, hp, hr, h0, Bool.not_true, hk, Bool.not_false, if_true]
    cases gs with
    | mk board piece dropCounter lastTime running score level linesCleared combo dropInterval =>
      simp only at hp
      subst hp
      cases p with
      | mk position shape color => rfl
  · intro gs2 h
    simp only [attemptRotation, hp, hr] at h
    rcases hc : checkCollision { p with shape := r } gs.board with _ | b
    · rw [hc] at h; cases h
    · rw [hc] at h
      simp only at h
      rcases hk : kickLoop gs.board [-1, 1, -2, 2] { p with shape := r } (!b) with _ | ⟨q2, ok2⟩
      · rw [hk] at h; cases h
      · rw [hk] at h
        have hf := kickLoop_frame _ _ _ _ _ _ hk
        simp only at h
        by_cases hok : ok2 = true
        · simp only [hok, Bool.not_true, Bool.false_eq_true, if_false, Option.some.injEq] at h
          rw [← h]
          exact ⟨rfl, q2, rfl, hf.1⟩
        · simp only [hok, Bool.not_false, Bool.not_eq_true] at h
          simp only [Bool.not_eq_true] at hok
          simp only [hok, Bool.not_false, if_true, Option.some.injEq] at h
          rw [← h]
          exact ⟨rfl, _, rfl, hf.1⟩
  · intro hwf
    simp only [attemptRotation, hp, hr]
    obtain ⟨b, hb⟩ := checkCollision_total { p with shape := r } gs.board hwf
    rw [hb]
    obtain ⟨⟨q2, ok2⟩, hk⟩ := kickLoop_total gs.board hwf [-1, 1, -2, 2] { p with shape := r } (!b)
    simp only [hk]
    by_cases hok : ok2 = true
    · simp [hok]
    · simp [hok]

/-- Witness of C4: the upright bar at column 11 turns into the lying bar, which sticks out
of the board by one cell and is moved by the first offset `-1`; the upright bar in the
rightmost column finds every offset blocked and stays as it is. -/
theorem attemptRotation_spec_witness :
    attemptRotation barNearRightWall =
      some { barNearRightWall with
        piece := some { position := { x := 11 + -1, y := 5 }, shape := [[1, 1, 1, 1]],
                        color := "#4D4DFF" } } ∧
    attemptRotation barAtRightWall = some barAtRightWall :=
  ⟨(attemptRotation_spec barNearRightWall
      { position := { x := 11, y := 5 }, shape := [[1], [1], [1], [1]], color := "#4D4DFF" }
      [[1, 1, 1, 1]] rfl (by decide)).2.1 (by decide) [] (-1) [1, -2, 2] rfl (by decide)
      (by decide),
   (attemptRotation_spec barAtRightWall
      { position := { x := 13, y := 5 }, shape := [[1], [1], [1], [1]], color := "#4D4DFF" }
      [[1, 1, 1, 1]] rfl (by decide)).2.2.1 (by decide) (by decide)⟩

/-! ## Row removal -/

theorem zeroRow_not_full : isFull zeroRow = false := by decide

theorem removeLoop_spec (fuel : Nat) (revTop done : Board) (k : Int)
    (hfuel : revTop.length + (revTop.filter isFull).length + 1 ≤ fuel) :
    removeLoop fuel (revTop.reverse ++ done) ((revTop.length : Int) - 1) k =
      some (List.replicate (revTop.filter isFull).length zeroRow ++
              (revTop.filter (fun row => !isFull row)).reverse ++ done,
            k + ((revTop.filter isFull).length : Int)) := by
  induction fuel generalizing revTop done k with
  | zero => omega
  | succ fuel ih =>
    cases revTop with
    | nil => simp [removeLoop]
    | cons last rest =>
      have hy : ((((last :: rest).length : Nat) : Int) - 1) = (rest.length : Int) := by
        simp
      rw [hy]
      unfold removeLoop
      have hge : (rest.length : Int) ≥ 0 := by omega
      simp only [hge, if_true, Int.toNat_ofNat]
      have hget : ((last :: rest).reverse ++ done)[rest.length]? = some last := by
        rw [List.reverse_cons, List.append_assoc]
        rw [List.getElem?_append_right (by simp)]
        simp
      rw [hget]
      simp only []
      by_cases hfull : isFull last = true
      · have hfull2 : (last.all fun cell => decide (cell ≠ 0)) = true := hfull
        rw [if_pos hfull2]
        have hnew : (List.replicate BOARD_WIDTH.toNat (0 : Int) ::
            ((last :: rest).reverse ++ done).eraseIdx rest.length) =
            (rest ++ [zeroRow]).reverse ++ done := by
          have e1 : ((last :: rest).reverse ++ done).eraseIdx rest.length = rest.reverse ++ done := by
            rw [List.reverse_cons, List.append_assoc]
            rw [List.eraseIdx_append_of_length_le (by simp)]
            simp
          rw [e1]
          simp [zeroRow, BOARD_WIDTH]
        rw [hnew]
        have hlen : ((rest.length : Nat) : Int) = (((rest ++ [zeroRow]).length : Nat) : Int) - 1 := by
          simp
        rw [hlen]
        have hcount : ((rest ++ [zeroRow]).filter isFull).length = (rest.filter isFull).length := by
          simp [List.filter_append, List.filter_cons, zeroRow_not_full]
        have hcount2 : ((last :: rest).filter isFull).length = (rest.filter isFull).length + 1 := by
          simp [List.filter_cons, hfull]
        rw [ih (rest ++ [zeroRow]) done (k + 1) (by
          rw [hcount]; simp only [List.length_append, List.length_singleton]
          rw [hcount2] at hfuel; simp only [List.length_cons] at hfuel; omega)]
        rw [hcount, hcount2]
        simp only [List.filter_append, List.filter_cons, zeroRow_not_full, hfull, Bool.not_false,
          Bool.not_true, if_true, Bool.false_eq_true, if_false, List.filter_nil,
          List.reverse_append, List.reverse_cons, List.reverse_nil, List.nil_append,
          List.replicate_succ', List.append_assoc, List.singleton_append, Option.some.injEq,
          Prod.mk.injEq, true_and]
        push_cast
        ring
      · have hfull2 : ¬ ((last.all fun cell => decide (cell ≠ 0)) = true) := hfull
        rw [if_neg hfull2]
        have hb : (last :: rest).reverse ++ done = rest.reverse ++ (last :: done) := by
          simp
        rw [hb]
        have hcount2 : ((last :: rest).filter isFull).length = (rest.filter isFull).length := by
          simp [List.filter_cons, hfull]
        rw [ih rest (last :: done) k (by
          rw [hcount2] at hfuel; simp only [List.length_cons] at hfuel; omega)]
        rw [hcount2]
        simp only [Bool.not_eq_true] at hfull
        simp [List.filter_cons, hfull]

theorem removeLoop_board (board : Board) (hlen : board.length = 30) :
    removeLoop scanFuel board (BOARD_HEIGHT - 1) 0 =
      some (List.replicate (board.filter isFull).length zeroRow ++
              board.filter (fun row => !isFull row),
            ((board.filter isFull).length : Int)) := by
  have h := removeLoop_spec scanFuel board.reverse [] 0 (by
    have := List.length_filter_le isFull board.reverse
    simp only [List.length_reverse] at this ⊢
    simp only [scanFuel, BOARD_HEIGHT]
    have e : (2 * (30 : Int).toNat + 1) = 61 := by decide
    omega)
  simp only [List.reverse_reverse, List.append_nil, List.length_reverse, hlen,
    List.filter_reverse, zero_add] at h
  have e : (BOARD_HEIGHT - 1 : Int) = ((30 : Nat) : Int) - 1 := by decide
  rw [e, h]

theorem cleared_wellFormed (board : Board) (hwf : WellFormed board) :
    WellFormed (List.replicate (board.filter isFull).length zeroRow ++
      board.filter (fun row => !isFull row)) := by
  obtain ⟨hlen, hrows⟩ := hwf
  constructor
  · have h1 := List.length_eq_length_filter_add (l := board) isFull
    simp only [List.length_append, List.length_replicate]
    rw [h1] at hlen
    exact hlen
  · intro row hrow
    rcases List.mem_append.mp hrow with h | h
    · rw [(List.mem_replicate.mp h).2]; decide
    · exact hrows row (List.mem_filter.mp h).1

/-- C5: on a board of 30 rows by 14 cells `removeFullRows` returns the number `k` of full
rows of the input board and leaves `k` rows of 14 zero cells followed by the non-full rows
of the input in their order; the board has again 30 rows of 14 cells and no full row.
When rows 27 and 29 are full and no other row is, the call returns 2 and leaves two empty
rows on top of the other 28 rows. -/
theorem removeFullRows_rows (gs : GameState) (hwf : WellFormed gs.board) :
    ∃ gs2, removeFullRows gs = some (gs2, ((gs.board.filter isFull).length : Int)) ∧
      gs2.board = List.replicate (gs.board.filter isFull).length (List.replicate 14 0) ++
        gs.board.filter (fun row => !isFull row) ∧
      WellFormed gs2.board ∧ gs2.board.length = 30 ∧
      (∀ row ∈ gs2.board, isFull row = false) ∧
      (∀ (above : Board) (r27 r28 r29 : List Int), gs.board = above ++ [r27, r28, r29] →
        (∀ row ∈ above, isFull row = false) → isFull r27 = true → isFull r28 = false →
        isFull r29 = true →
        (gs.board.filter isFull).length = 2 ∧
        gs2.board = List.replicate 14 0 :: List.replicate 14 0 :: (above ++ [r28])) := by
  have hlen : gs.board.length = 30 := by
    have := hwf.1
    simp only [BOARD_HEIGHT] at this
    omega
  have hwf2 := cleared_wellFormed gs.board hwf
  have hlen2 : (List.replicate (gs.board.filter isFull).length zeroRow ++
      gs.board.filter (fun row => !isFull row)).length = 30 := by
    have := hwf2.1
    simp only [BOARD_HEIGHT] at this
    omega
  have hnofull : ∀ row ∈ (List.replicate (gs.board.filter isFull).length zeroRow ++
      gs.board.filter (fun row => !isFull row)), isFull row = false := by
    intro row hrow
    rcases List.mem_append.mp hrow with h | h
    · rw [(List.mem_replicate.mp h).2]; exact zeroRow_not_full
    · simpa using (List.mem_filter.mp h).2
  have hcase : ∀ (above : Board) (r27 r28 r29 : List Int), gs.board = above ++ [r27, r28, r29] →
        (∀ row ∈ above, isFull row = false) → isFull r27 = true → isFull r28 = false →
        isFull r29 = true →
        (gs.board.filter isFull).length = 2 ∧
        (List.replicate (gs.board.filter isFull).length zeroRow ++
          gs.board.filter (fun row => !isFull row)) =
          List.replicate 14 0 :: List.replicate 14 0 :: (above ++ [r28]) := by
    intro above r27 r28 r29 hb ha h27 h28 h29
    have f1 : above.filter isFull = [] := by
      rw [List.filter_eq_nil_iff]
      intro row hrow
      simp [ha row hrow]
    have f2 : above.filter (fun row => !isFull row) = above := by
      rw [List.filter_eq_self]
      intro row hrow
      simp [ha row hrow]
    have c : gs.board.filter isFull = [r27, r29] := by
      rw [hb]
      simp [List.filter_append, List.filter_cons, f1, h27, h28, h29]
    have n : gs.board.filter (fun row => !isFull row) = above ++ [r28] := by
      rw [hb]
      simp [List.filter_append, List.filter_cons, f2, h27, h28, h29]
    rw [c, n]
    exact ⟨rfl, rfl⟩
  unfold removeFullRows
  rw [removeLoop_board gs.board hlen]
  simp only []
  split
  · split
    · exact ⟨_, rfl, rfl, hwf2, hlen2, hnofull, hcase⟩
    · exact ⟨_, rfl, rfl, hwf2, hlen2, hnofull, hcase⟩
  · exact ⟨_, rfl, rfl, hwf2, hlen2, hnofull, hcase⟩

/-- Witness of C5: on `twoFullRows` (rows 27 and 29 full) the call returns 2. -/
theorem removeFullRows_rows_witness :
    WellFormed twoFullRowsState.board ∧
    ∃ gs2, removeFullRows twoFullRowsState = some (gs2, 2) ∧
      gs2.board = List.replicate 14 0 :: List.replicate 14 0 ::
        (List.replicate 26 zeroRow ++
          [[0, 0, 0, 1, 0, 0, 0, 0, 0, 0, 0, 0, 0, 0],
           [1, 1, 1, 1, 1, 1, 1, 0, 0, 0, 0, 0, 0, 0]]) :=
  ⟨by decide, by
    obtain ⟨gs2, h1, h2, _⟩ := removeFullRows_rows twoFullRowsState (by decide)
    exact ⟨gs2, h1, h2⟩⟩

/-! ## Scoring -/

/-- C6: for `rowsRemoved >= 1` the score is `(base + (combo - 1) * 50) * level` with base
100, 300, 500, 800 for 1, 2, 3, 4 rows and `rowsRemoved * 200` above 4; the three worked
values of the specification. -/
theorem calculateScore_spec (rowsRemoved level combo : Int) (h : rowsRemoved ≥ 1) :
    (rowsRemoved = 1 → calculateScore rowsRemoved level combo = (100 + (combo - 1) * 50) * level) ∧
    (rowsRemoved = 2 → calculateScore rowsRemoved level combo = (300 + (combo - 1) * 50) * level) ∧
    (rowsRemoved = 3 → calculateScore rowsRemoved level combo = (500 + (combo - 1) * 50) * level) ∧
    (rowsRemoved = 4 → calculateScore rowsRemoved level combo = (800 + (combo - 1) * 50) * level) ∧
    (rowsRemoved > 4 →
      calculateScore rowsRemoved level combo = (rowsRemoved * 200 + (combo - 1) * 50) * level) ∧
    (rowsRemoved = 1 ∨ rowsRemoved = 2 ∨ rowsRemoved = 3 ∨ rowsRemoved = 4 ∨ rowsRemoved > 4) ∧
    calculateScore 1 1 1 = 100 ∧ calculateScore 2 1 2 = 350 ∧ calculateScore 1 3 1 = 300 := by
  refine ⟨?_, ?_, ?_, ?_, ?_, by omega, by decide, by decide, by decide⟩
  · intro e; subst e; simp [calculateScore, scoreTable]
  · intro e; subst e; simp [calculateScore, scoreTable]
  · intro e; subst e; simp [calculateScore, scoreTable]
  · intro e; subst e; simp [calculateScore, scoreTable]
  · intro e
    have h1 : rowsRemoved ≠ 1 := by omega
    have h2 : rowsRemoved ≠ 2 := by omega
    have h3 : rowsRemoved ≠ 3 := by omega
    have h4 : rowsRemoved ≠ 4 := by omega
    simp [calculateScore, scoreTable, h1, h2, h3, h4]

/-- Witness of C6: seven rows at level 2 with combo 3. -/
theorem calculateScore_spec_witness :
    calculateScore 7 2 3 = (7 * 200 + (3 - 1) * 50) * 2 :=
  (calculateScore_spec 7 2 3 (by decide)).2.2.2.2.1 (by decide)

/-! ## Counters after a row removal -/

/-- C8: when the board of 30 rows by 14 cells has `k > 0` full rows, `removeFullRows`
returns `k` and ends with `combo = c + 1`, `score = s + calculateScore(k, l, c + 1)` (old
level, new combo), `linesCleared = n + k`, and, with `newLevel = floor((n + k) / 10) + 1`,
level `newLevel` and drop interval `max(1000 - (newLevel - 1) * 100, 200)` if
`newLevel > l`, level and drop interval unchanged otherwise. -/
theorem removeFullRows_counters (gs : GameState) (hwf : WellFormed gs.board)
    (hk : 0 < (gs.board.filter isFull).length) :
    ∃ gs2, removeFullRows gs = some (gs2, ((gs.board.filter isFull).length : Int)) ∧
      ScoredClear gs gs2 ((gs.board.filter isFull).length : Int) := by
  have hlen : gs.board.length = 30 := by
    have := hwf.1
    simp only [BOARD_HEIGHT] at this
    omega
  have hpos : ((gs.board.filter isFull).length : Int) > 0 := by omega
  unfold removeFullRows
  rw [removeLoop_board gs.board hlen]
  simp only [hpos, if_true]
  by_cases hl : (gs.linesCleared + ((gs.board.filter isFull).length : Int)) / 10 + 1 > gs.level
  · rw [if_pos hl]
    exact ⟨_, rfl, rfl, rfl, rfl, Or.inl ⟨hl, rfl, rfl⟩⟩
  · rw [if_neg hl]
    exact ⟨_, rfl, rfl, rfl, rfl, Or.inr ⟨hl, rfl, rfl⟩⟩

/-- Witness of C8: two rows removed at 9 lines, level 1, combo 1 and score 700 lead to
11 lines, level 2, combo 2, score 1050 and drop interval 900. -/
theorem removeFullRows_counters_witness :
    ∃ gs2, removeFullRows twoFullRowsState = some (gs2, 2) ∧
      gs2.combo = 2 ∧ gs2.score = 1050 ∧ gs2.linesCleared = 11 ∧ gs2.level = 2 ∧
      gs2.dropInterval = 900 := by
  obtain ⟨gs2, h1, h2, h3, h4, h5⟩ :=
    removeFullRows_counters twoFullRowsState (by decide) (by decide)
  refine ⟨gs2, h1, h2, h3, h4, ?_⟩
  rcases h5 with ⟨_, h6, h7⟩ | ⟨h6, _, _⟩
  · exact ⟨h6, h7⟩
  · exact absurd (by decide) h6

/-- C9: when the board of 30 rows by 14 cells has no full row, `removeFullRows` returns 0
and changes nothing but the combo, which becomes 0. -/
theorem removeFullRows_none (gs : GameState) (hwf : WellFormed gs.board)
    (hnone : ∀ row ∈ gs.board, isFull row = false) :
    removeFullRows gs = some ({ gs with combo := 0 }, 0) := by
  have hlen : gs.board.length = 30 := by
    have := hwf.1
    simp only [BOARD_HEIGHT] at this
    omega
  have f1 : gs.board.filter isFull = [] := by
    rw [List.filter_eq_nil_iff]
    intro row hrow
    simp [hnone row hrow]
  have f2 : gs.board.filter (fun row => !isFull row) = gs.board := by
    rw [List.filter_eq_self]
    intro row hrow
    simp [hnone row hrow]
  unfold removeFullRows
  rw [removeLoop_board gs.board hlen, f1, f2]
  simp

/-- Witness of C9: a session with combo 3 and score 500 on the empty board. -/
theorem removeFullRows_none_witness :
    removeFullRows { barAtRightWall with combo := 3, score := 500 } =
      some ({ barAtRightWall with combo := 0, score := 500 }, 0) :=
  removeFullRows_none { barAtRightWall with combo := 3, score := 500 } (by decide) (by decide)

/-! ## Game over -/

/-- C7, the code at the failing input: on `topOutWithFullRow` the soft drop and the tick
lock the square, which completes row 1; whatever piece is drawn next collides, so
`handleGameOver` runs, and the row removal that follows it scores the completed row. The
call returns with `running = false`, score 100, combo 1 and one cleared line. -/
theorem gameOver_then_scored :
    WellFormed topOutWithFullRow.board ∧
    checkCollision (generatePiece 0) topOutWithFullRow.board = some false ∧
    (∀ shapeIndex : Fin 7,
      (handleKeyDown Key.ArrowDown shapeIndex topOutWithFullRow).map counters =
        some (false, 100, 1, 1, 1, 1000)) ∧
    (∀ shapeIndex : Fin 7,
      (updateGame 5020 shapeIndex topOutWithFullRow).map counters =
        some (false, 100, 1, 1, 1, 1000)) := by
  refine ⟨by decide, by decide, ?_, ?_⟩
  · intro shapeIndex
    fin_cases shapeIndex <;> rfl
  · intro shapeIndex
    fin_cases shapeIndex <;> rfl

/-! ## The level invariant -/

theorem handleGameOver_inv (gs : GameState) : LevelInvariant (handleGameOver gs) := by
  simp [LevelInvariant, handleGameOver]

theorem start_inv (shapeIndex : Fin 7) (gs : GameState) :
    LevelInvariant (start shapeIndex gs) := by
  simp [LevelInvariant, start]

theorem removeFullRows_inv (gs gs2 : GameState) (k : Int)
    (h : removeFullRows gs = some (gs2, k)) (hi : LevelInvariant gs) : LevelInvariant gs2 := by
  obtain ⟨h1, h2⟩ := hi
  unfold removeFullRows at h
  split at h
  · cases h
  · rename_i board1 rowsRemoved _
    simp only [] at h
    split at h
    · split at h
      · rename_i hpos hlev
        simp only [Option.some.injEq, Prod.mk.injEq] at h
        rw [← h.1]
        exact ⟨rfl, rfl⟩
      · rename_i hpos hlev
        simp only [Option.some.injEq, Prod.mk.injEq] at h
        rw [← h.1]
        simp only [LevelInvariant]
        refine ⟨?_, h2⟩
        omega
    · simp only [Option.some.injEq, Prod.mk.injEq] at h
      rw [← h.1]
      exact ⟨h1, h2⟩

theorem solidifyPiece_inv (shapeIndex : Fin 7) (gs t : GameState)
    (h : solidifyPiece handleGameOver shapeIndex gs = some t) (hi : LevelInvariant gs) :
    LevelInvariant t := by
  unfold solidifyPiece at h
  split at h
  · cases h
  · split at h
    · cases h
    · simp only [] at h
      split at h
      · cases h
      · simp only [Option.some.injEq] at h
        rw [← h]
        exact handleGameOver_inv _
      · simp only [Option.some.injEq] at h
        rw [← h]
        exact hi

theorem dropStep_inv (shapeIndex : Fin 7) (gs t : GameState)
    (h : dropStep shapeIndex gs = some t) (hi : LevelInvariant gs) : LevelInvariant t := by
  unfold dropStep at h
  split at h
  · cases h
  · simp only [] at h
    split at h
    · cases h
    · simp only [Option.some.injEq] at h
      rw [← h]
      exact hi
    · split at h
      · cases h
      · rename_i gs1 hs
        split at h
        · cases h
        · rename_i gs2 k hr
          simp only [Option.some.injEq] at h
          rw [← h]
          exact removeFullRows_inv _ _ _ hr (solidifyPiece_inv _ _ _ hs hi)

theorem moveStep_inv (dx : Int) (gs t : GameState) (h : moveStep dx gs = some t)
    (hi : LevelInvariant gs) : LevelInvariant t := by
  unfold moveStep at h
  split at h
  · cases h
  · simp only [] at h
    split at h
    · cases h
    · simp only [Option.some.injEq] at h
      rw [← h]
      exact hi
    · simp only [Option.some.injEq] at h
      rw [← h]
      exact hi

theorem attemptRotation_inv (gs t : GameState) (h : attemptRotation gs = some t)
    (hi : LevelInvariant gs) : LevelInvariant t := by
  unfold attemptRotation at h
  split at h
  · cases h
  · simp only [] at h
    split at h
    · cases h
    · split at h
      · cases h
      · split at h
        · cases h
        · split at h
          · simp only [Option.some.injEq] at h
            rw [← h]
            exact hi
          · simp only [Option.some.injEq] at h
            rw [← h]
            exact hi

theorem updateGame_inv (time : Int) (shapeIndex : Fin 7) (gs t : GameState)
    (h : updateGame time shapeIndex gs = some t) (hi : LevelInvariant gs) :
    LevelInvariant t := by
  unfold updateGame at h
  split at h
  · simp only [Option.some.injEq] at h
    rw [← h]
    exact hi
  · simp only [] at h
    split at h
    · split at h
      · cases h
      · rename_i gs2 hd
        simp only [Option.some.injEq] at h
        rw [← h]
        exact dropStep_inv _ _ gs2 hd hi
    · simp only [Option.some.injEq] at h
      rw [← h]
      exact hi

theorem handleKeyDown_inv (key : Key) (shapeIndex : Fin 7) (gs t : GameState)
    (h : handleKeyDown key shapeIndex gs = some t) (hi : LevelInvariant gs) :
    LevelInvariant t := by
  unfold handleKeyDown at h
  split at h
  · simp only [Option.some.injEq] at h
    rw [← h]
    exact hi
  · cases key with
    | ArrowLeft => exact moveStep_inv _ _ _ h hi
    | ArrowRight => exact moveStep_inv _ _ _ h hi
    | ArrowDown =>
      simp only [] at h
      split at h
      · cases h
      · rename_i gs1 hd
        simp only [Option.some.injEq] at h
        rw [← h]
        exact dropStep_inv _ _ gs1 hd hi
    | ArrowUp => exact attemptRotation_inv _ _ h hi
    | other =>
      simp only [Option.some.injEq] at h
      rw [← h]
      exact hi

/-- C10: `level = floor(linesCleared / 10) + 1` together with
`dropInterval = max(1000 - (level - 1) * 100, 200)` holds in the initial state and after
start, is preserved by `removeFullRows` on every board and for every number of removed
rows, holds after `handleGameOver`, and holds in every state reachable through start,
ticks and key events. -/
theorem levelInvariant_reachable :
    LevelInvariant initialState ∧
    (∀ (shapeIndex : Fin 7) (gs : GameState), LevelInvariant (start shapeIndex gs)) ∧
    (∀ (gs gs2 : GameState) (k : Int), LevelInvariant gs →
      removeFullRows gs = some (gs2, k) → LevelInvariant gs2) ∧
    (∀ gs : GameState, LevelInvariant (handleGameOver gs)) ∧
    (∀ gs : GameState, Reachable gs → LevelInvariant gs) := by
  refine ⟨by decide, start_inv, fun gs gs2 k hi h => removeFullRows_inv gs gs2 k h hi,
    handleGameOver_inv, ?_⟩
  intro gs hr
  induction hr with
  | init => decide
  | start shapeIndex s _ _ => exact start_inv shapeIndex s
  | tick time shapeIndex s t _ h ih => exact updateGame_inv time shapeIndex s t h ih
  | input key shapeIndex s t _ h ih => exact handleKeyDown_inv key shapeIndex s t h ih

/-- Witness of C10: the state after a start, a tick that moves the piece down one row and
a soft drop is reachable, and the invariant holds in it. -/
theorem levelInvariant_reachable_witness :
    ∃ t, (updateGame 1001 0 (start 0 initialState)).bind (handleKeyDown Key.ArrowDown 0) =
        some t ∧ LevelInvariant t := by
  obtain ⟨t1, h1⟩ : ∃ t1, updateGame 1001 0 (start 0 initialState) = some t1 := ⟨_, rfl⟩
  obtain ⟨t2, h2⟩ : ∃ t2, handleKeyDown Key.ArrowDown 0 t1 = some t2 := by
    have e : some t1 = updateGame 1001 0 (start 0 initialState) := h1.symm
    have : (updateGame 1001 0 (start 0 initialState)).bind (handleKeyDown Key.ArrowDown 0) =
        handleKeyDown Key.ArrowDown 0 t1 := by rw [h1]; rfl
    rw [← this]
    exact ⟨_, rfl⟩
  refine ⟨t2, by rw [h1]; exact h2, ?_⟩
  exact levelInvariant_reachable.2.2.2.2 t2
    (Reachable.input Key.ArrowDown 0 t1 t2
      (Reachable.tick 1001 0 _ t1 (Reachable.start 0 _ Reachable.init) h1) h2)

/-! ## Drop interval -/

theorem reachable_levelInvariant (gs : GameState) (hr : Reachable gs) : LevelInvariant gs := by
  induction hr with
  | init => decide
  | start shapeIndex s _ _ => exact start_inv shapeIndex s
  | tick time shapeIndex s t _ h ih => exact updateGame_inv time shapeIndex s t h ih
  | input key shapeIndex s t _ h ih => exact handleKeyDown_inv key shapeIndex s t h ih

/-- C11: for `level >= 1`, `getDropInterval(level) = max(1000 - (level - 1) * 100, 200)`,
between 200 and 1000, non-increasing in the level, and exactly 200 from level 11 on. A
session at 9 lines and level 1 that clears one row ends at 10 lines, level 2 and drop
interval 900; a reachable session with at least 100 lines has level at least 11 and drop
interval 200. -/
theorem getDropInterval_spec (level : Int) (h : level ≥ 1) :
    getDropInterval level = max (1000 - (level - 1) * 100) 200 ∧
    200 ≤ getDropInterval level ∧ getDropInterval level ≤ 1000 ∧
    (∀ level2 : Int, level ≤ level2 → getDropInterval level2 ≤ getDropInterval level) ∧
    (level ≥ 11 → getDropInterval level = 200) ∧
    (∀ gs : GameState, WellFormed gs.board → (gs.board.filter isFull).length = 1 →
      gs.linesCleared = 9 → gs.level = 1 →
      ∃ gs2, removeFullRows gs = some (gs2, 1) ∧ gs2.linesCleared = 10 ∧ gs2.level = 2 ∧
        gs2.dropInterval = 900) ∧
    (∀ gs : GameState, Reachable gs → gs.linesCleared ≥ 100 →
      gs.level ≥ 11 ∧ gs.dropInterval = 200) := by
  refine ⟨rfl, ?_, ?_, ?_, ?_, ?_, ?_⟩
  · unfold getDropInterval; omega
  · unfold getDropInterval; omega
  · intro level2 h2; unfold getDropInterval; omega
  · intro h11; unfold getDropInterval; omega
  · intro gs hwf hone h9 h1
    have hlen : gs.board.length = 30 := by
      have := hwf.1
      simp only [BOARD_HEIGHT] at this
      omega
    unfold removeFullRows
    rw [removeLoop_board gs.board hlen, hone]
    simp [h9, h1, getDropInterval]
  · intro gs hr h100
    obtain ⟨h1, h2⟩ := reachable_levelInvariant gs hr
    constructor
    · omega
    · rw [h2]; omega

/-- Witness of C11: level 3 gives 800, and no higher level gives more. -/
theorem getDropInterval_spec_witness :
    getDropInterval 3 = 800 ∧
    ∀ level2 : Int, 3 ≤ level2 → getDropInterval level2 ≤ getDropInterval 3 :=
  ⟨by
    have h := (getDropInterval_spec 3 (by decide)).1
    rw [h]; decide,
   (getDropInterval_spec 3 (by decide)).2.2.2.1⟩

/-! ## Calls on a session that is not running -/

/-- C12: on a session with `running = false`, `updateGame` with any time and
`handleKeyDown` with any key return with the whole state unchanged (board, piece, score,
level, lines, combo, drop interval, drop counter and last time). -/
theorem notRunning_noop (gs : GameState) (h : gs.running = false) :
    (∀ (time : Int) (shapeIndex : Fin 7), updateGame time shapeIndex gs = some gs) ∧
    (∀ (key : Key) (shapeIndex : Fin 7), handleKeyDown key shapeIndex gs = some gs) := by
  constructor
  · intro time shapeIndex
    simp [updateGame, h]
  · intro key shapeIndex
    simp [handleKeyDown, h]

/-- Witness of C12: the state left by a game over ignores a tick and a soft drop. -/
theorem notRunning_noop_witness :
    updateGame 9000 3 (handleGameOver topOutWithFullRow) =
      some (handleGameOver topOutWithFullRow) ∧
    handleKeyDown Key.ArrowDown 3 (handleGameOver topOutWithFullRow) =
      some (handleGameOver topOutWithFullRow) :=
  ⟨(notRunning_noop (handleGameOver topOutWithFullRow) rfl).1 9000 3,
   (notRunning_noop (handleGameOver topOutWithFullRow) rfl).2 Key.ArrowDown 3⟩

/-! ## Horizontal moves -/

theorem lowered_back (q : Piece) :
    ({ position := { x := q.position.x, y := q.position.y + 1 - 1 }, shape := q.shape,
       color := q.color } : Piece) = q := by
  cases q with
  | mk position shape color =>
    cases position
    simp

theorem moveStep_free (dx : Int) (gs : GameState) (p : Piece) (hp : gs.piece = some p)
    (hfree : checkCollision (shifted p dx) gs.board = some false) :
    moveStep dx gs = some { gs with piece := some (shifted p dx) } := by
  simp only [shifted] at hfree
  simp [moveStep, hp, hfree, shifted]

theorem moveStep_blocked (dx : Int) (gs : GameState) (p : Piece) (hp : gs.piece = some p)
    (hhit : checkCollision (shifted p dx) gs.board = some true) :
    moveStep dx gs = some gs := by
  simp only [shifted] at hhit
  simp only [moveStep, hp, hhit, shifted_back]
  cases gs with
  | mk board piece dropCounter lastTime running score level linesCleared combo dropInterval =>
    simp only at hp
    subst hp
    rfl

theorem moveStep_total (dx : Int) (gs : GameState) (p : Piece) (hp : gs.piece = some p)
    (hwf : WellFormed gs.board) : ∃ t, moveStep dx gs = some t := by
  obtain ⟨b, hb⟩ := checkCollision_total (shifted p dx) gs.board hwf
  cases b with
  | false => exact ⟨_, moveStep_free dx gs p hp hb⟩
  | true => exact ⟨_, moveStep_blocked dx gs p hp hb⟩

/-- C18: on a running session `ArrowLeft` moves the piece by `-1` in `x` when the piece at
`(x - 1, y)` does not collide and leaves the session as it is otherwise, `ArrowRight` does
the same with `+1`; nothing but `position.x` changes, and on a board of 30 rows by 14 cells
both calls return. -/
theorem moveKeys_spec (gs : GameState) (p : Piece) (shapeIndex : Fin 7)
    (hrun : gs.running = true) (hp : gs.piece = some p) :
    (checkCollision (shifted p (-1)) gs.board = some false →
      handleKeyDown Key.ArrowLeft shapeIndex gs =
        some { gs with piece := some (shifted p (-1)) }) ∧
    (checkCollision (shifted p (-1)) gs.board = some true →
      handleKeyDown Key.ArrowLeft shapeIndex gs = some gs) ∧
    (checkCollision (shifted p 1) gs.board = some false →
      handleKeyDown Key.ArrowRight shapeIndex gs =
        some { gs with piece := some (shifted p 1) }) ∧
    (checkCollision (shifted p 1) gs.board = some true →
      handleKeyDown Key.ArrowRight shapeIndex gs = some gs) ∧
    (WellFormed gs.board →
      (∃ t, handleKeyDown Key.ArrowLeft shapeIndex gs = some t) ∧
      (∃ t, handleKeyDown Key.ArrowRight shapeIndex gs = some t)) := by
  have hl : handleKeyDown Key.ArrowLeft shapeIndex gs = moveStep (-1) gs := by
    simp [handleKeyDown, hrun]
  have hr : handleKeyDown Key.ArrowRight shapeIndex gs = moveStep 1 gs := by
    simp [handleKeyDown, hrun]
  rw [hl, hr]
  exact ⟨moveStep_free (-1) gs p hp, moveStep_blocked (-1) gs p hp, moveStep_free 1 gs p hp,
    moveStep_blocked 1 gs p hp,
    fun hwf => ⟨moveStep_total (-1) gs p hp hwf, moveStep_total 1 gs p hp hwf⟩⟩

/-- Witness of C18: the upright bar in the rightmost column moves left and does not move
right. -/
theorem moveKeys_spec_witness :
    handleKeyDown Key.ArrowLeft 0 barAtRightWall =
      some { barAtRightWall with
        piece := some { position := { x := 13 + -1, y := 5 }, shape := [[1], [1], [1], [1]],
                        color := "#4D4DFF" } } ∧
    handleKeyDown Key.ArrowRight 0 barAtRightWall = some barAtRightWall :=
  ⟨(moveKeys_spec barAtRightWall
      { position := { x := 13, y := 5 }, shape := [[1], [1], [1], [1]], color := "#4D4DFF" }
      0 rfl rfl).1 (by decide),
   (moveKeys_spec barAtRightWall
      { position := { x := 13, y := 5 }, shape := [[1], [1], [1], [1]], color := "#4D4DFF" }
      0 rfl rfl).2.2.2.1 (by decide)⟩

/-! ## Soft drop and gravity -/

theorem withClock_self (gs : GameState) : withClock gs.lastTime gs.dropCounter gs = gs := by
  cases gs; rfl

theorem solidifyPiece_clock (a b : Int) (shapeIndex : Fin 7) (gs : GameState) :
    solidifyPiece handleGameOver shapeIndex (withClock a b gs) =
      (solidifyPiece handleGameOver shapeIndex gs).map (withClock a b) := by
  unfold solidifyPiece
  simp only [withClock]
  rcases gs.piece with _ | piece
  · rfl
  · simp only []
    rcases solidifyRows piece.position piece.shape 0 gs.board with _ | board1
    · rfl
    · simp only []
      rcases checkCollision (generatePiece shapeIndex) board1 with _ | c
      · rfl
      · cases c <;> rfl

theorem removeFullRows_clock (a b : Int) (gs : GameState) :
    removeFullRows (withClock a b gs) =
      (removeFullRows gs).map (fun r => (withClock a b r.1, r.2)) := by
  unfold removeFullRows
  simp only [withClock]
  rcases removeLoop scanFuel gs.board (BOARD_HEIGHT - 1) 0 with _ | ⟨board1, rowsRemoved⟩
  · rfl
  · simp only []
    split
    · split <;> rfl
    · rfl

theorem dropStep_clock (a b : Int) (shapeIndex : Fin 7) (gs : GameState) :
    dropStep shapeIndex (withClock a b gs) = (dropStep shapeIndex gs).map (withClock a b) := by
  unfold dropStep
  rcases hp : gs.piece with _ | piece
  · simp [withClock, hp]
  · have hp2 : (withClock a b gs).piece = some piece := hp
    have hb2 : (withClock a b gs).board = gs.board := rfl
    simp only [hp2, hb2]
    rcases checkCollision
      { piece with position := { piece.position with y := piece.position.y + 1 } }
      gs.board with _ | c
    · rfl
    · cases c with
      | false => rfl
      | true =>
        simp only [lowered_back]
        have hs := solidifyPiece_clock a b shapeIndex { gs with piece := some piece }
        simp only [withClock] at hs ⊢
        rw [hs]
        rcases solidifyPiece handleGameOver shapeIndex { gs with piece := some piece } with
          _ | gs1
        · rfl
        · simp only [Option.map_some']
          rw [removeFullRows_clock a b gs1]
          rcases removeFullRows gs1 with _ | ⟨gs2, k⟩
          · rfl
          · rfl

theorem dropStep_keeps_clock (shapeIndex : Fin 7) (gs t : GameState)
    (h : dropStep shapeIndex gs = some t) :
    t.lastTime = gs.lastTime ∧ t.dropCounter = gs.dropCounter := by
  have hc := dropStep_clock gs.lastTime gs.dropCounter shapeIndex gs
  rw [withClock_self, h] at hc
  simp only [Option.map_some', Option.some.injEq] at hc
  rw [hc]
  exact ⟨rfl, rfl⟩

/-- C16: on a running session a tick whose accumulated drop counter exceeds the drop
interval returns what the soft drop (`ArrowDown`) returns, but for `lastTime`, which the
tick sets to its time and the soft drop keeps; both end with `dropCounter = 0`. The piece
moves down one row when that position is free; otherwise it stays, is locked by
`solidifyPiece`, and `removeFullRows` is run. -/
theorem softDrop_matches_tick (gs : GameState) (time : Int) (shapeIndex : Fin 7)
    (hrun : gs.running = true)
    (hdue : gs.dropCounter + (time - gs.lastTime) > gs.dropInterval) :
    updateGame time shapeIndex gs =
      (handleKeyDown Key.ArrowDown shapeIndex gs).map (fun t => { t with lastTime := time }) ∧
    (∀ t, handleKeyDown Key.ArrowDown shapeIndex gs = some t →
      t.dropCounter = 0 ∧ t.lastTime = gs.lastTime) ∧
    (∀ t, updateGame time shapeIndex gs = some t → t.dropCounter = 0 ∧ t.lastTime = time) ∧
    (∀ p, gs.piece = some p →
      (checkCollision (lowered p) gs.board = some false →
        handleKeyDown Key.ArrowDown shapeIndex gs =
          some { gs with piece := some (lowered p), dropCounter := 0 }) ∧
      (checkCollision (lowered p) gs.board = some true →
        handleKeyDown Key.ArrowDown shapeIndex gs =
          ((solidifyPiece handleGameOver shapeIndex gs).bind removeFullRows).map
            (fun r => { r.1 with dropCounter := 0 }))) := by
  have hk : handleKeyDown Key.ArrowDown shapeIndex gs =
      (dropStep shapeIndex gs).map (fun t => { t with dropCounter := 0 }) := by
    simp only [handleKeyDown, hrun, Bool.not_true, Bool.false_eq_true, if_false]
    rcases dropStep shapeIndex gs with _ | t <;> rfl
  have hu : updateGame time shapeIndex gs =
      (dropStep shapeIndex gs).map
        (fun t => { t with dropCounter := 0, lastTime := time }) := by
    simp only [updateGame, hrun, Bool.not_true, Bool.false_eq_true, if_false, hdue, if_true]
    have hc := dropStep_clock time (gs.dropCounter + (time - gs.lastTime)) shapeIndex gs
    simp only [withClock, hrun] at hc
    rw [hc]
    rcases dropStep shapeIndex gs with _ | t <;> rfl
  refine ⟨?_, ?_, ?_, ?_⟩
  · rw [hu, hk]
    rcases dropStep shapeIndex gs with _ | t <;> rfl
  · intro t ht
    rw [hk] at ht
    rcases hd : dropStep shapeIndex gs with _ | t1
    · rw [hd] at ht; cases ht
    · rw [hd] at ht
      simp only [Option.map_some', Option.some.injEq] at ht
      rw [← ht]
      exact ⟨rfl, (dropStep_keeps_clock shapeIndex gs t1 hd).1⟩
  · intro t ht
    rw [hu] at ht
    rcases hd : dropStep shapeIndex gs with _ | t1
    · rw [hd] at ht; cases ht
    · rw [hd] at ht
      simp only [Option.map_some', Option.some.injEq] at ht
      rw [← ht]
      exact ⟨rfl, rfl⟩
  · intro p hp
    constructor
    · intro hfree
      simp only [lowered] at hfree
      rw [hk]
      simp [dropStep, hp, hfree, lowered]
    · intro hhit
      simp only [lowered] at hhit
      rw [hk]
      have hgs : ({ gs with piece := some p } : GameState) = gs := by
        cases gs with
        | mk board piece dropCounter lastTime running score level linesCleared combo
            dropInterval =>
          simp only at hp
          subst hp
          rfl
      simp only [dropStep, hp, hhit, lowered_back, hgs]
      rcases solidifyPiece handleGameOver shapeIndex gs with _ | gs1
      · rfl
      · simp only [Option.some_bind]
        rcases removeFullRows gs1 with _ | ⟨gs2, k⟩ <;> rfl

/-- Witness of C16: on `topOutWithFullRow` the tick at time 5020 (drop counter 1010 above
the interval 1000) and the soft drop agree up to `lastTime`. -/
theorem softDrop_matches_tick_witness :
    updateGame 5020 2 topOutWithFullRow =
      (handleKeyDown Key.ArrowDown 2 topOutWithFullRow).map
        (fun t => { t with lastTime := 5020 }) :=
  (softDrop_matches_tick topOutWithFullRow 5020 2 rfl (by decide)).1

/-! ## Termination of the row scan -/

theorem eraseIdx_full_count (board : Board) (y : Nat) (row : List Int)
    (hrow : board[y]? = some row) (hfull : isFull row = true) :
    ((List.replicate BOARD_WIDTH.toNat 0 :: board.eraseIdx y).filter isFull).length + 1 =
      (board.filter isFull).length := by
  have hz : isFull (List.replicate BOARD_WIDTH.toNat 0) = false := by decide
  simp only [List.filter_cons, hz, Bool.false_eq_true, if_false]
  induction board generalizing y with
  | nil => simp at hrow
  | cons r rest ih =>
    cases y with
    | zero =>
      simp only [List.getElem?_cons_zero, Option.some.injEq] at hrow
      subst hrow
      simp [List.filter_cons, hfull]
    | succ j =>
      simp only [List.getElem?_cons_succ] at hrow
      have := ih j hrow
      simp only [List.eraseIdx_cons_succ, List.filter_cons]
      by_cases hr : isFull r = true
      · simp only [hr, if_true, List.length_cons]
        omega
      · simp only [hr, Bool.false_eq_true, if_false]
        exact this

/-- C17: on a board of 30 rows by 14 cells the row scan of `removeFullRows` ends: with `c`
the number of full rows, every fuel of at least `30 + c + 1` iterations gives the same
result, so does the fuel of `removeFullRows`, and `c <= 30` rows are removed. A removal
puts a row of 14 zero cells, which is not full, in place of a full row, so it lowers the
number of full rows of any board by one. -/
theorem removeLoop_terminates (board : Board) (hwf : WellFormed board) :
    ∃ (board2 : Board) (k : Int),
      (∀ fuel : Nat, 30 + (board.filter isFull).length + 1 ≤ fuel →
        removeLoop fuel board (BOARD_HEIGHT - 1) 0 = some (board2, k)) ∧
      removeLoop scanFuel board (BOARD_HEIGHT - 1) 0 = some (board2, k) ∧
      k = ((board.filter isFull).length : Int) ∧ 0 ≤ k ∧ k ≤ 30 ∧
      isFull (List.replicate BOARD_WIDTH.toNat 0) = false ∧
      (∀ (b : Board) (y : Nat) (row : List Int), b[y]? = some row → isFull row = true →
        ((List.replicate BOARD_WIDTH.toNat 0 :: b.eraseIdx y).filter isFull).length + 1 =
          (b.filter isFull).length) := by
  have hlen : board.length = 30 := by
    have := hwf.1
    simp only [BOARD_HEIGHT] at this
    omega
  have hcount : (board.filter isFull).length ≤ 30 := by
    have := List.length_filter_le isFull board
    omega
  refine ⟨_, _, ?_, removeLoop_board board hlen, rfl, by omega, by omega, by decide,
    eraseIdx_full_count⟩
  intro fuel hfuel
  have h := removeLoop_spec fuel board.reverse [] 0 (by
    simp only [List.length_reverse, List.filter_reverse]
    omega)
  simp only [List.reverse_reverse, List.append_nil, List.length_reverse, hlen,
    List.filter_reverse, zero_add] at h
  have e : (BOARD_HEIGHT - 1 : Int) = ((30 : Nat) : Int) - 1 := by decide
  rw [e, h]

/-- Witness of C17: on `twoFullRows` every fuel from 33 on gives the result of the scan. -/
theorem removeLoop_terminates_witness :
    WellFormed twoFullRows ∧
    ∃ (board2 : Board) (k : Int),
      (∀ fuel : Nat, 30 + (twoFullRows.filter isFull).length + 1 ≤ fuel →
        removeLoop fuel twoFullRows (BOARD_HEIGHT - 1) 0 = some (board2, k)) ∧ k = 2 := by
  refine ⟨by decide, ?_⟩
  obtain ⟨board2, k, h1, _, h3, _⟩ := removeLoop_terminates twoFullRows (by decide)
  exact ⟨board2, k, h1, h3⟩

/-! ## Piece generation -/

/-- C15, as stated, fails for the square (catalog index 0): it is 2 columns wide and is
placed at `x = 5`, which leaves 5 free columns on its left and 7 on its right. -/
theorem generatePiece_square_not_centred : ¬ Centred (generatePiece 0) := by
  decide

/-- C15, amended: for every catalog index the generated piece has the shape and the colour
of that index, `y = 0` and `x = floor(14 / 2) - 2 = 5` whatever the shape; the free
columns left and right of the bounding box differ by at most one for every index but 0
(shapes 3 and 4 columns wide) and by two for index 0 (the square, 5 left and 7 right). -/
theorem generatePiece_spec (shapeIndex : Fin 7) :
    PIECES[shapeIndex.val]? = some (generatePiece shapeIndex).shape ∧
    PIECES_COLORS[shapeIndex.val]? = some (generatePiece shapeIndex).color ∧
    (generatePiece shapeIndex).position.y = 0 ∧
    (generatePiece shapeIndex).position.x = 5 ∧
    (shapeIndex ≠ 0 → Centred (generatePiece shapeIndex)) ∧
    (shapeIndex = 0 →
      (generatePiece shapeIndex).position.x = 5 ∧
      14 - (generatePiece shapeIndex).position.x - shapeWidth (generatePiece shapeIndex).shape
        = 7) := by
  fin_cases shapeIndex <;> decide

/-- Witness of C15 (amended) at the bar, index 1: five free columns on either side. -/
theorem generatePiece_spec_witness : Centred (generatePiece 1) :=
  (generatePiece_spec 1).2.2.2.2.1 (by decide)

/-! ## Validity of the active piece under rotation -/

theorem kickLoop_valid (board : Board) (offsets : List Int) (q q2 : Piece) (ok2 : Bool)
    (h : kickLoop board offsets q false = some (q2, ok2)) :
    (ok2 = true → checkCollision q2 board = some false) ∧ (ok2 = false → q2 = q) := by
  induction offsets generalizing q with
  | nil =>
    simp only [kickLoop, Option.some.injEq, Prod.mk.injEq] at h
    rw [← h.1, ← h.2]
    exact ⟨fun hc => Bool.noConfusion hc, fun _ => rfl⟩
  | cons e rest ih =>
    unfold kickLoop at h
    simp only [Bool.false_eq_true, if_false] at h
    rcases hc : checkCollision
      { position := { x := q.position.x + e, y := q.position.y }, shape := q.shape,
        color := q.color } board with _ | b
    · rw [hc] at h; cases h
    · rw [hc] at h
      cases b with
      | false =>
        simp only [Option.some.injEq, Prod.mk.injEq] at h
        rw [← h.1, ← h.2]
        exact ⟨fun _ => hc, fun hf => Bool.noConfusion hf⟩
      | true =>
        simp only [shifted_back] at h
        exact ih q h

/-- C19: on a board of 30 rows by 14 cells, when the active piece does not collide and its
shape can be rotated, `attemptRotation` returns with the board unchanged and an active
piece (rotated in place, rotated and moved, or as it was) that does not collide. -/
theorem attemptRotation_valid (gs : GameState) (p : Piece) (r : Shape)
    (hp : gs.piece = some p) (hwf : WellFormed gs.board)
    (hfree : checkCollision p gs.board = some false)
    (hr : rotateMatrix p.shape = some r) :
    ∃ t p2, attemptRotation gs = some t ∧ t.board = gs.board ∧ t.piece = some p2 ∧
      checkCollision p2 t.board = some false := by
  obtain ⟨b, hb⟩ := checkCollision_total { p with shape := r } gs.board hwf
  cases b with
  | false =>
    refine ⟨{ gs with piece := some { p with shape := r } }, { p with shape := r }, ?_, rfl,
      rfl, hb⟩
    simp [attemptRotation, hp, hr, hb, kickLoop]
  | true =>
    obtain ⟨⟨q2, ok2⟩, hk⟩ :=
      kickLoop_total gs.board hwf [-1, 1, -2, 2] { p with shape := r } false
    obtain ⟨hv1, hv2⟩ := kickLoop_valid _ _ _ _ _ hk
    cases ok2 with
    | true =>
      refine ⟨{ gs with piece := some q2 }, q2, ?_, rfl, rfl, hv1 rfl⟩
      simp [attemptRotation, hp, hr, hb, hk]
    | false =>
      have hq := hv2 rfl
      refine ⟨{ gs with piece := some p }, p, ?_, rfl, rfl, hfree⟩
      simp only [attemptRotation, hp, hr, hb, Bool.not_true, hk, Bool.not_false, if_true, hq]

/-- Witness of C19: the upright bar at column 11 of the empty board. -/
theorem attemptRotation_valid_witness :
    ∃ t p2, attemptRotation barNearRightWall = some t ∧ t.board = barNearRightWall.board ∧
      t.piece = some p2 ∧ checkCollision p2 t.board = some false :=
  attemptRotation_valid barNearRightWall
    { position := { x := 11, y := 5 }, shape := [[1], [1], [1], [1]], color := "#4D4DFF" }
    [[1, 1, 1, 1]] rfl (by decide) (by decide) (by decide)

/-! ## Locking a piece -/

theorem exists_cons_shift (value : Int) (rest : List Int) (x : Nat) (P : Nat → Prop) :
    (∃ (i : Nat) (v : Int), (value :: rest)[i]? = some v ∧ v ≠ 0 ∧ P (x + i)) ↔
      ((value ≠ 0 ∧ P x) ∨ ∃ (i : Nat) (v : Int), rest[i]? = some v ∧ v ≠ 0 ∧ P (x + 1 + i)) := by
  constructor
  · rintro ⟨i, v, hi, hv, hb⟩
    cases i with
    | zero =>
      simp only [List.getElem?_cons_zero, Option.some.injEq] at hi
      subst hi
      exact Or.inl ⟨hv, by simpa using hb⟩
    | succ j =>
      simp only [List.getElem?_cons_succ] at hi
      refine Or.inr ⟨j, v, hi, hv, ?_⟩
      have : x + 1 + j = x + (j + 1) := by omega
      rw [this]; exact hb
  · rintro (⟨hv, hb⟩ | ⟨j, v, hi, hv, hb⟩)
    · exact ⟨0, value, by simp, hv, by simpa using hb⟩
    · refine ⟨j + 1, v, by simpa using hi, hv, ?_⟩
      have : x + 1 + j = x + (j + 1) := by omega
      rw [← this]; exact hb

theorem exists_rows_shift (row : List Int) (rest : Shape) (y : Nat) (Q : Nat → Nat → Prop) :
    (∃ (j i : Nat) (srow : List Int) (v : Int), (row :: rest)[j]? = some srow ∧
        srow[i]? = some v ∧ v ≠ 0 ∧ Q (y + j) i) ↔
      ((∃ (i : Nat) (v : Int), row[i]? = some v ∧ v ≠ 0 ∧ Q y i) ∨
        ∃ (j i : Nat) (srow : List Int) (v : Int), rest[j]? = some srow ∧
          srow[i]? = some v ∧ v ≠ 0 ∧ Q (y + 1 + j) i) := by
  constructor
  · rintro ⟨j, i, srow, v, hj, hi, hv, hb⟩
    cases j with
    | zero =>
      simp only [List.getElem?_cons_zero, Option.some.injEq] at hj
      subst hj
      exact Or.inl ⟨i, v, hi, hv, by simpa using hb⟩
    | succ k =>
      simp only [List.getElem?_cons_succ] at hj
      refine Or.inr ⟨k, i, srow, v, hj, hi, hv, ?_⟩
      have : y + 1 + k = y + (k + 1) := by omega
      rw [this]; exact hb
  · rintro (⟨i, v, hi, hv, hb⟩ | ⟨k, i, srow, v, hj, hi, hv, hb⟩)
    · exact ⟨0, i, row, v, by simp, hi, hv, by simpa using hb⟩
    · refine ⟨k + 1, i, srow, v, by simpa using hj, hi, hv, ?_⟩
      have : y + 1 + k = y + (k + 1) := by omega
      rw [← this]; exact hb

theorem setCell_inside (board : Board) (hwf : WellFormed board) (boardY boardX : Int)
    (hy0 : 0 ≤ boardY) (hy1 : boardY < 30) (hx0 : 0 ≤ boardX) (hx1 : boardX < 14) :
    ∃ board1, setCell board boardY boardX = some board1 ∧ WellFormed board1 ∧
      (Binary board → Binary board1) ∧
      ∀ (r c : Nat), cell board1 r c =
        if (r : Int) = boardY ∧ (c : Int) = boardX then some 1 else cell board r c := by
  obtain ⟨row, v, hrow, hlen, hv⟩ := wellFormed_cell board hwf boardY boardX hy0 hy1 hx0 hx1
  have hX : boardX.toNat < row.length := by omega
  have hgy : ¬ boardY < 0 := by omega
  have hgx : ¬ boardX < 0 := by omega
  refine ⟨board.set boardY.toNat (row.set boardX.toNat 1), ?_, ?_, ?_, ?_⟩
  · simp [setCell, hgy, hgx, hrow, hX]
  · obtain ⟨hl, hrows⟩ := hwf
    refine ⟨by simpa using hl, ?_⟩
    intro r hr
    rcases List.mem_or_eq_of_mem_set hr with h1 | h1
    · exact hrows r h1
    · rw [h1, List.length_set]
      exact hrows row (List.getElem?_mem hrow)
  · intro hbin r hr c hc
    rcases List.mem_or_eq_of_mem_set hr with h1 | h1
    · exact hbin r h1 c hc
    · rw [h1] at hc
      rcases List.mem_or_eq_of_mem_set hc with h2 | h2
      · exact hbin row (List.getElem?_mem hrow) c h2
      · exact Or.inr h2
  · intro r c
    have hYlen : boardY.toNat < board.length := by
      by_contra hcon
      rw [List.getElem?_eq_none (by omega)] at hrow
      cases hrow
    simp only [cell, List.getElem?_set]
    by_cases hr : boardY.toNat = r
    · have hr2 : (r : Int) = boardY := by omega
      simp only [hr, hr2, true_and, if_true]
      rw [hr] at hYlen hrow
      simp only [hYlen, if_true, Option.some_bind, hrow, List.getElem?_set]
      by_cases hc : boardX.toNat = c
      · have hc2 : (c : Int) = boardX := by omega
        have hXc : c < row.length := by omega
        simp [hc, hc2, hXc]
      · have hc2 : ¬ ((c : Int) = boardX) := by omega
        simp [hc, hc2]
    · have hr2 : ¬ ((r : Int) = boardY) := by omega
      simp [hr, hr2]

theorem solidifyRow_spec (position : Position) (y : Nat) (cells : List Int) (x : Nat)
    (board : Board) (hwf : WellFormed board)
    (hin : ∀ (i : Nat) (v : Int), cells[i]? = some v → v ≠ 0 →
      0 ≤ (y : Int) + position.y ∧ (y : Int) + position.y < 30 ∧
      0 ≤ ((x + i : Nat) : Int) + position.x ∧ ((x + i : Nat) : Int) + position.x < 14) :
    ∃ board1, solidifyRow position y cells x board = some board1 ∧ WellFormed board1 ∧
      (Binary board → Binary board1) ∧
      ∀ (r c : Nat),
        ((∃ (i : Nat) (v : Int), cells[i]? = some v ∧ v ≠ 0 ∧
            ((r : Int) = (y : Int) + position.y ∧
             (c : Int) = ((x + i : Nat) : Int) + position.x)) →
          cell board1 r c = some 1) ∧
        ((¬ ∃ (i : Nat) (v : Int), cells[i]? = some v ∧ v ≠ 0 ∧
            ((r : Int) = (y : Int) + position.y ∧
             (c : Int) = ((x + i : Nat) : Int) + position.x)) →
          cell board1 r c = cell board r c) := by
  induction cells generalizing x board with
  | nil => exact ⟨board, rfl, hwf, id, fun r c => ⟨by simp, fun _ => rfl⟩⟩
  | cons value rest ih =>
    have hin2 : ∀ (i : Nat) (v : Int), rest[i]? = some v → v ≠ 0 →
        0 ≤ (y : Int) + position.y ∧ (y : Int) + position.y < 30 ∧
        0 ≤ ((x + 1 + i : Nat) : Int) + position.x ∧
        ((x + 1 + i : Nat) : Int) + position.x < 14 := by
      intro i v hi hv
      have := hin (i + 1) v (by simpa using hi) hv
      have e : x + 1 + i = x + (i + 1) := by omega
      rw [e]; exact this
    unfold solidifyRow
    by_cases hv : value = 0
    · simp only [hv, ne_eq, not_true_eq_false, if_false]
      obtain ⟨b1, hb1, hw1, hbin1, hc1⟩ := ih (x + 1) board hwf hin2
      refine ⟨b1, hb1, hw1, hbin1, ?_⟩
      intro r c
      have hs := exists_cons_shift value rest x (fun n =>
        (r : Int) = (y : Int) + position.y ∧ (c : Int) = ((n : Nat) : Int) + position.x)
      simp only [hv, ne_eq, not_true_eq_false, false_and, false_or] at hs
      subst hv
      rw [hs]
      exact hc1 r c
    · simp only [ne_eq, hv, not_false_eq_true, if_true]
      have h0 := hin 0 value (by simp) hv
      simp only [Nat.add_zero] at h0
      obtain ⟨b0, hb0, hwf0, hbin0, hc0⟩ :=
        setCell_inside board hwf _ _ h0.1 h0.2.1 h0.2.2.1 h0.2.2.2
      obtain ⟨b1, hb1, hw1, hbin1, hc1⟩ := ih (x + 1) b0 hwf0 hin2
      rw [hb0]
      refine ⟨b1, hb1, hw1, fun hb => hbin1 (hbin0 hb), ?_⟩
      intro r c
      have hs := exists_cons_shift value rest x (fun n =>
        (r : Int) = (y : Int) + position.y ∧ (c : Int) = ((n : Nat) : Int) + position.x)
      simp only [ne_eq, hv, not_false_eq_true, true_and] at hs
      rw [hs]
      obtain ⟨k1, k2⟩ := hc1 r c
      by_cases hrest : ∃ (i : Nat) (v : Int), rest[i]? = some v ∧ v ≠ 0 ∧
            ((r : Int) = (y : Int) + position.y ∧
             (c : Int) = ((x + 1 + i : Nat) : Int) + position.x)
      · exact ⟨fun _ => k1 hrest, fun hn => absurd (Or.inr hrest) hn⟩
      · have e1 := k2 hrest
        rw [hc0 r c] at e1
        constructor
        · rintro (hfirst | h2)
          · rw [e1, if_pos hfirst]
          · exact absurd h2 hrest
        · intro hn
          have hnf : ¬ ((r : Int) = (y : Int) + position.y ∧
              (c : Int) = (x : Int) + position.x) := fun hf => hn (Or.inl hf)
          rw [e1, if_neg hnf]

theorem solidifyRows_spec (position : Position) (rows : Shape) (y : Nat) (board : Board)
    (hwf : WellFormed board)
    (hin : ∀ (j i : Nat) (srow : List Int) (v : Int), rows[j]? = some srow →
      srow[i]? = some v → v ≠ 0 →
      0 ≤ ((y + j : Nat) : Int) + position.y ∧ ((y + j : Nat) : Int) + position.y < 30 ∧
      0 ≤ (i : Int) + position.x ∧ (i : Int) + position.x < 14) :
    ∃ board1, solidifyRows position rows y board = some board1 ∧ WellFormed board1 ∧
      (Binary board → Binary board1) ∧
      ∀ (r c : Nat),
        ((∃ (j i : Nat) (srow : List Int) (v : Int), rows[j]? = some srow ∧
            srow[i]? = some v ∧ v ≠ 0 ∧
            ((r : Int) = ((y + j : Nat) : Int) + position.y ∧
             (c : Int) = (i : Int) + position.x)) →
          cell board1 r c = some 1) ∧
        ((¬ ∃ (j i : Nat) (srow : List Int) (v : Int), rows[j]? = some srow ∧
            srow[i]? = some v ∧ v ≠ 0 ∧
            ((r : Int) = ((y + j : Nat) : Int) + position.y ∧
             (c : Int) = (i : Int) + position.x)) →
          cell board1 r c = cell board r c) := by
  induction rows generalizing y board with
  | nil => exact ⟨board, rfl, hwf, id, fun r c => ⟨by simp, fun _ => rfl⟩⟩
  | cons row rest ih =>
    have hin1 : ∀ (i : Nat) (v : Int), row[i]? = some v → v ≠ 0 →
        0 ≤ (y : Int) + position.y ∧ (y : Int) + position.y < 30 ∧
        0 ≤ ((0 + i : Nat) : Int) + position.x ∧ ((0 + i : Nat) : Int) + position.x < 14 := by
      intro i v hi hv
      have := hin 0 i row v (by simp) hi hv
      simpa using this
    have hin2 : ∀ (j i : Nat) (srow : List Int) (v : Int), rest[j]? = some srow →
        srow[i]? = some v → v ≠ 0 →
        0 ≤ ((y + 1 + j : Nat) : Int) + position.y ∧
        ((y + 1 + j : Nat) : Int) + position.y < 30 ∧
        0 ≤ (i : Int) + position.x ∧ (i : Int) + position.x < 14 := by
      intro j i srow v hj hi hv
      have := hin (j + 1) i srow v (by simpa using hj) hi hv
      have e : y + 1 + j = y + (j + 1) := by omega
      rw [e]; exact this
    obtain ⟨b0, hb0, hwf0, hbin0, hc0⟩ := solidifyRow_spec position y row 0 board hwf hin1
    obtain ⟨b1, hb1, hw1, hbin1, hc1⟩ := ih (y + 1) b0 hwf0 hin2
    unfold solidifyRows
    rw [hb0]
    refine ⟨b1, hb1, hw1, fun hb => hbin1 (hbin0 hb), ?_⟩
    intro r c
    have hs := exists_rows_shift row rest y (fun n i =>
      (r : Int) = ((n : Nat) : Int) + position.y ∧ (c : Int) = (i : Int) + position.x)
    rw [hs]
    obtain ⟨k1, k2⟩ := hc1 r c
    obtain ⟨f1, f2⟩ := hc0 r c
    simp only [Nat.zero_add] at f1 f2
    by_cases hrest : ∃ (j i : Nat) (srow : List Int) (v : Int), rest[j]? = some srow ∧
          srow[i]? = some v ∧ v ≠ 0 ∧
          ((r : Int) = ((y + 1 + j : Nat) : Int) + position.y ∧
           (c : Int) = (i : Int) + position.x)
    · exact ⟨fun _ => k1 hrest, fun hn => absurd (Or.inr hrest) hn⟩
    · have e1 := k2 hrest
      constructor
      · rintro (hfirst | h2)
        · rw [e1]; exact f1 hfirst
        · exact absurd h2 hrest
      · intro hn
        have hnf : ¬ ∃ (i : Nat) (v : Int), row[i]? = some v ∧ v ≠ 0 ∧
            ((r : Int) = (y : Int) + position.y ∧ (c : Int) = (i : Int) + position.x) :=
          fun hf => hn (Or.inl hf)
        rw [e1]; exact f2 hnf

theorem free_inBounds (p : Piece) (board : Board) (hwf : WellFormed board)
    (hfree : checkCollision p board = some false) (j i : Nat) (srow : List Int) (v : Int)
    (hj : p.shape[j]? = some srow) (hi : srow[i]? = some v) (hv : v ≠ 0) :
    0 ≤ (j : Int) + p.position.y ∧ (j : Int) + p.position.y < 30 ∧
    0 ≤ (i : Int) + p.position.x ∧ (i : Int) + p.position.x < 14 := by
  have hno := (checkCollision_blocked p board hwf).2.mp hfree
  by_contra hcon
  apply hno
  refine ⟨j, i, srow, v, hj, hi, hv, ?_⟩
  by_cases h1 : (j : Int) + p.position.y < 0
  · exact Or.inl h1
  · by_cases h2 : (j : Int) + p.position.y ≥ 30
    · exact Or.inr (Or.inl h2)
    · by_cases h3 : (i : Int) + p.position.x < 0
      · exact Or.inr (Or.inr (Or.inl h3))
      · by_cases h4 : (i : Int) + p.position.x ≥ 14
        · exact Or.inr (Or.inr (Or.inr (Or.inl h4)))
        · exact absurd ⟨by omega, by omega, by omega, by omega⟩ hcon

theorem solidifyRows_inBounds (p : Piece) (board : Board) (hwf : WellFormed board)
    (hin : InBounds p) :
    ∃ board1, solidifyRows p.position p.shape 0 board = some board1 ∧ WellFormed board1 ∧
      (Binary board → Binary board1) ∧
      ∀ (r c : Nat), (Occupies p r c → cell board1 r c = some 1) ∧
        (¬ Occupies p r c → cell board1 r c = cell board r c) := by
  obtain ⟨b1, hb1, hw1, hbin1, hc1⟩ := solidifyRows_spec p.position p.shape 0 board hwf (by
    intro j i srow v hj hi hv
    have := hin j i srow v hj hi hv
    simpa using this)
  refine ⟨b1, hb1, hw1, hbin1, ?_⟩
  intro r c
  have := hc1 r c
  simp only [Nat.zero_add] at this
  exact this

theorem solidifyRows_free (p : Piece) (board : Board) (hwf : WellFormed board)
    (hfree : checkCollision p board = some false) :
    ∃ board1, solidifyRows p.position p.shape 0 board = some board1 ∧ WellFormed board1 ∧
      (Binary board → Binary board1) ∧
      ∀ (r c : Nat), (Occupies p r c → cell board1 r c = some 1) ∧
        (¬ Occupies p r c → cell board1 r c = cell board r c) :=
  solidifyRows_inBounds p board hwf (free_inBounds p board hwf hfree)

/-- C13: on a board of 30 rows by 14 cells and an active piece that does not collide,
`solidifyPiece` overwrites existing cells only (every occupied cell of the piece lies in
rows 0..29 and columns 0..13) and leaves a board of 30 rows by 14 cells in which the cells
of the piece are 1 and every other cell is as before, so a cell is occupied exactly when
it was occupied or is a cell of the piece. The active piece becomes the generated one, and
the handler is applied exactly when the generated piece collides with the new board. -/
theorem solidifyPiece_spec (handler : GameState → GameState) (shapeIndex : Fin 7)
    (gs : GameState) (p : Piece) (hp : gs.piece = some p) (hwf : WellFormed gs.board)
    (hfree : checkCollision p gs.board = some false) :
    ∃ board1, solidifyRows p.position p.shape 0 gs.board = some board1 ∧
      WellFormed board1 ∧
      (∀ (r c : Nat), Occupies p r c → r < 30 ∧ c < 14) ∧
      (∀ (r c : Nat), (Occupies p r c → cell board1 r c = some 1) ∧
        (¬ Occupies p r c → cell board1 r c = cell gs.board r c)) ∧
      (∀ (r c : Nat), Filled board1 r c ↔ (Filled gs.board r c ∨ Occupies p r c)) ∧
      (∃ b, checkCollision (generatePiece shapeIndex) board1 = some b) ∧
      (checkCollision (generatePiece shapeIndex) board1 = some true →
        solidifyPiece handler shapeIndex gs =
          some (handler { gs with board := board1, piece := some (generatePiece shapeIndex) })) ∧
      (checkCollision (generatePiece shapeIndex) board1 = some false →
        solidifyPiece handler shapeIndex gs =
          some { gs with board := board1, piece := some (generatePiece shapeIndex) }) := by
  obtain ⟨b1, hb1, hwf1, _, hc1⟩ := solidifyRows_free p gs.board hwf hfree
  refine ⟨b1, hb1, hwf1, ?_, hc1, ?_, checkCollision_total _ b1 hwf1, ?_, ?_⟩
  · rintro r c ⟨j, i, srow, v, hj, hi, hv, hr, hc⟩
    have := free_inBounds p gs.board hwf hfree j i srow v hj hi hv
    omega
  · intro r c
    obtain ⟨k1, k2⟩ := hc1 r c
    by_cases hocc : Occupies p r c
    · constructor
      · intro _; exact Or.inr hocc
      · intro _; exact ⟨1, k1 hocc, by decide⟩
    · unfold Filled
      rw [k2 hocc]
      constructor
      · intro h; exact Or.inl h
      · rintro (h | h)
        · exact h
        · exact absurd h hocc
  · intro hhit
    simp [solidifyPiece, hp, hb1, hhit]
  · intro hno
    simp [solidifyPiece, hp, hb1, hno]

/-- Witness of C13: on `topOutWithFullRow` the square at `(5, 0)` is locked; the new board
has 30 rows of 14 cells and its occupied cells are the old ones and those of the square. -/
theorem solidifyPiece_spec_witness :
    ∃ board1,
      solidifyRows (generatePiece 0).position (generatePiece 0).shape 0
        topOutWithFullRow.board = some board1 ∧
      WellFormed board1 ∧
      (∀ (r c : Nat), Filled board1 r c ↔
        (Filled topOutWithFullRow.board r c ∨ Occupies (generatePiece 0) r c)) := by
  obtain ⟨b1, h1, h2, _, _, h5, _⟩ :=
    solidifyPiece_spec handleGameOver 1 topOutWithFullRow (generatePiece 0) rfl (by decide)
      (by decide)
  exact ⟨b1, h1, h2, h5⟩

/-! ## The board shape -/

theorem cleared_binary (board : Board) (hbin : Binary board) :
    Binary (List.replicate (board.filter isFull).length zeroRow ++
      board.filter (fun row => !isFull row)) := by
  intro row hrow c hc
  rcases List.mem_append.mp hrow with h | h
  · rw [(List.mem_replicate.mp h).2] at hc
    exact Or.inl (List.mem_replicate.mp hc).2
  · exact hbin row (List.mem_filter.mp h).1 c hc

theorem removeFullRows_board_eq (gs t : GameState) (k : Int)
    (h : removeFullRows gs = some (t, k)) (hlen : gs.board.length = 30) :
    t.board = List.replicate (gs.board.filter isFull).length zeroRow ++
      gs.board.filter (fun row => !isFull row) := by
  unfold removeFullRows at h
  rw [removeLoop_board gs.board hlen] at h
  simp only [] at h
  split at h
  · split at h
    · simp only [Option.some.injEq, Prod.mk.injEq] at h
      rw [← h.1]
    · simp only [Option.some.injEq, Prod.mk.injEq] at h
      rw [← h.1]
  · simp only [Option.some.injEq, Prod.mk.injEq] at h
    rw [← h.1]

theorem wellFormed_length (board : Board) (hwf : WellFormed board) : board.length = 30 := by
  have := hwf.1
  simp only [BOARD_HEIGHT] at this
  omega

theorem removeFullRows_ok (gs t : GameState) (k : Int)
    (h : removeFullRows gs = some (t, k)) (hok : BoardOk gs.board) : BoardOk t.board := by
  rw [removeFullRows_board_eq gs t k h (wellFormed_length _ hok.1)]
  exact ⟨cleared_wellFormed gs.board hok.1, cleared_binary gs.board hok.2⟩

theorem removeFullRows_total (gs : GameState) (hwf : WellFormed gs.board) :
    ∃ t k, removeFullRows gs = some (t, k) := by
  unfold removeFullRows
  rw [removeLoop_board gs.board (wellFormed_length _ hwf)]
  simp only []
  split
  · split
    · exact ⟨_, _, rfl⟩
    · exact ⟨_, _, rfl⟩
  · exact ⟨_, _, rfl⟩

theorem attemptRotation_board (gs t : GameState) (h : attemptRotation gs = some t) :
    t.board = gs.board := by
  unfold attemptRotation at h
  split at h
  · cases h
  · simp only [] at h
    split at h
    · cases h
    · split at h
      · cases h
      · split at h
        · cases h
        · split at h
          · simp only [Option.some.injEq] at h
            rw [← h]
          · simp only [Option.some.injEq] at h
            rw [← h]

theorem moveStep_board (dx : Int) (gs t : GameState) (h : moveStep dx gs = some t) :
    t.board = gs.board := by
  unfold moveStep at h
  split at h
  · cases h
  · simp only [] at h
    split at h
    · cases h
    · simp only [Option.some.injEq] at h
      rw [← h]
    · simp only [Option.some.injEq] at h
      rw [← h]

theorem attemptRotation_total (gs : GameState) (p : Piece) (r : Shape)
    (hp : gs.piece = some p) (hr : rotateMatrix p.shape = some r)
    (hwf : WellFormed gs.board) : ∃ t, attemptRotation gs = some t := by
  simp only [attemptRotation, hp, hr]
  obtain ⟨b, hb⟩ := checkCollision_total { p with shape := r } gs.board hwf
  rw [hb]
  obtain ⟨⟨q2, ok2⟩, hk⟩ := kickLoop_total gs.board hwf [-1, 1, -2, 2] { p with shape := r } (!b)
  simp only [hk]
  cases ok2 <;> simp

theorem removeFullRows_frame (gs t : GameState) (k : Int)
    (h : removeFullRows gs = some (t, k)) : t.piece = gs.piece ∧ t.running = gs.running := by
  unfold removeFullRows at h
  split at h
  · cases h
  · simp only [] at h
    split at h
    · split at h
      · simp only [Option.some.injEq, Prod.mk.injEq] at h
        rw [← h.1]; exact ⟨rfl, rfl⟩
      · simp only [Option.some.injEq, Prod.mk.injEq] at h
        rw [← h.1]; exact ⟨rfl, rfl⟩
    · simp only [Option.some.injEq, Prod.mk.injEq] at h
      rw [← h.1]; exact ⟨rfl, rfl⟩

theorem withPiece_self (gs : GameState) (p : Piece) (hp : gs.piece = some p) :
    ({ gs with piece := some p } : GameState) = gs := by
  cases gs with
  | mk board piece dropCounter lastTime running score level linesCleared combo dropInterval =>
    simp only at hp
    subst hp
    rfl

theorem generatePiece_ok (shapeIndex : Fin 7) : PieceOk (generatePiece shapeIndex) := by
  constructor
  · exact free_inBounds (generatePiece shapeIndex) (createBoard 14 30) (by decide)
      (by fin_cases shapeIndex <;> decide)
  · fin_cases shapeIndex
    · exact ⟨2, 2, by decide, by decide, by decide⟩
    · exact ⟨1, 4, by decide, by decide, by decide⟩
    · exact ⟨2, 3, by decide, by decide, by decide⟩
    · exact ⟨2, 3, by decide, by decide, by decide⟩
    · exact ⟨2, 3, by decide, by decide, by decide⟩
    · exact ⟨2, 3, by decide, by decide, by decide⟩
    · exact ⟨2, 3, by decide, by decide, by decide⟩

theorem solidifyPiece_step (shapeIndex : Fin 7) (gs : GameState) (p : Piece)
    (hp : gs.piece = some p) (hok : BoardOk gs.board) (hin : InBounds p) :
    ∃ t, solidifyPiece handleGameOver shapeIndex gs = some t ∧ BoardOk t.board ∧
      t.piece = some (generatePiece shapeIndex) := by
  obtain ⟨b1, hb1, hwf1, hbin1, _⟩ := solidifyRows_inBounds p gs.board hok.1 hin
  obtain ⟨c, hc⟩ := checkCollision_total (generatePiece shapeIndex) b1 hwf1
  cases c with
  | false =>
    exact ⟨{ gs with board := b1, piece := some (generatePiece shapeIndex) },
      by simp [solidifyPiece, hp, hb1, hc], ⟨hwf1, hbin1 hok.2⟩, rfl⟩
  | true =>
    exact ⟨handleGameOver { gs with board := b1, piece := some (generatePiece shapeIndex) },
      by simp [solidifyPiece, hp, hb1, hc], ⟨hwf1, hbin1 hok.2⟩, rfl⟩

theorem dropStep_step (shapeIndex : Fin 7) (gs : GameState) (p : Piece)
    (hp : gs.piece = some p) (hok : BoardOk gs.board) (hin : InBounds p) :
    ∃ t p2, dropStep shapeIndex gs = some t ∧ BoardOk t.board ∧ t.piece = some p2 ∧
      InBounds p2 ∧ (p2.shape = p.shape ∨ p2 = generatePiece shapeIndex) := by
  obtain ⟨c, hc⟩ := checkCollision_total (lowered p) gs.board hok.1
  cases c with
  | false =>
    refine ⟨{ gs with piece := some (lowered p) }, lowered p, ?_, hok, rfl,
      free_inBounds (lowered p) gs.board hok.1 hc, Or.inl rfl⟩
    simp only [lowered] at hc
    simp [dropStep, hp, hc, lowered]
  | true =>
    obtain ⟨t1, ht1, hok1, hp1⟩ := solidifyPiece_step shapeIndex gs p hp hok hin
    obtain ⟨t2, k, ht2⟩ := removeFullRows_total t1 hok1.1
    have hf := removeFullRows_frame t1 t2 k ht2
    refine ⟨t2, generatePiece shapeIndex, ?_, removeFullRows_ok t1 t2 k ht2 hok1,
      by rw [hf.1, hp1], (generatePiece_ok shapeIndex).1, Or.inr rfl⟩
    simp only [lowered] at hc
    simp [dropStep, hp, hc, lowered_back, withPiece_self gs p hp, ht1, ht2]

theorem shape_kept_or_drawn (shapeIndex : Fin 7) (p p2 : Piece) (hrect : Rectangular p.shape)
    (h : p2.shape = p.shape ∨ p2 = generatePiece shapeIndex) : Rectangular p2.shape := by
  rcases h with h | h
  · rw [h]; exact hrect
  · rw [h]; exact (generatePiece_ok shapeIndex).2

theorem moveStep_step (dx : Int) (gs : GameState) (p : Piece)
    (hp : gs.piece = some p) (hok : BoardOk gs.board) (hin : InBounds p) :
    ∃ t p2, moveStep dx gs = some t ∧ BoardOk t.board ∧ t.piece = some p2 ∧ InBounds p2 ∧
      p2.shape = p.shape := by
  obtain ⟨c, hc⟩ := checkCollision_total (shifted p dx) gs.board hok.1
  cases c with
  | false =>
    exact ⟨{ gs with piece := some (shifted p dx) }, shifted p dx,
      moveStep_free dx gs p hp hc, hok, rfl,
      free_inBounds (shifted p dx) gs.board hok.1 hc, rfl⟩
  | true => exact ⟨gs, p, moveStep_blocked dx gs p hp hc, hok, hp, hin, rfl⟩

theorem attemptRotation_step (gs : GameState) (p : Piece)
    (hp : gs.piece = some p) (hok : BoardOk gs.board) (hpk : PieceOk p) :
    ∃ t p2, attemptRotation gs = some t ∧ BoardOk t.board ∧ t.piece = some p2 ∧
      PieceOk p2 := by
  obtain ⟨h, w, hh, hw, hrect⟩ := hpk.2
  obtain ⟨r, hr, hrect2, _⟩ := rotateMatrix_cells p.shape h w hrect (by omega)
  obtain ⟨b, hb⟩ := checkCollision_total { p with shape := r } gs.board hok.1
  cases b with
  | false =>
    refine ⟨{ gs with piece := some { p with shape := r } }, { p with shape := r }, ?_, hok,
      rfl, free_inBounds _ gs.board hok.1 hb, ⟨w, h, hw, hh, hrect2⟩⟩
    simp [attemptRotation, hp, hr, hb, kickLoop]
  | true =>
    obtain ⟨⟨q2, ok2⟩, hk⟩ :=
      kickLoop_total gs.board hok.1 [-1, 1, -2, 2] { p with shape := r } false
    obtain ⟨hv1, hv2⟩ := kickLoop_valid _ _ _ _ _ hk
    have hshape : q2.shape = r := (kickLoop_frame _ _ _ _ _ _ hk).2
    cases ok2 with
    | true =>
      refine ⟨{ gs with piece := some q2 }, q2, ?_, hok, rfl,
        free_inBounds q2 gs.board hok.1 (hv1 rfl), ⟨w, h, hw, hh, by rw [hshape]; exact hrect2⟩⟩
      simp [attemptRotation, hp, hr, hb, hk]
    | false =>
      have hq := hv2 rfl
      refine ⟨{ gs with piece := some p }, p, ?_, hok, rfl, hpk⟩
      simp only [attemptRotation, hp, hr, hb, Bool.not_true, hk, Bool.not_false, if_true, hq]

theorem updateGame_board (time : Int) (shapeIndex : Fin 7) (gs : GameState) (p : Piece)
    (hp : gs.piece = some p) (hok : BoardOk gs.board) (hin : InBounds p) :
    ∃ t p2, updateGame time shapeIndex gs = some t ∧ BoardOk t.board ∧ t.piece = some p2 ∧
      InBounds p2 ∧ (p2.shape = p.shape ∨ p2 = generatePiece shapeIndex) := by
  unfold updateGame
  split
  · exact ⟨gs, p, rfl, hok, hp, hin, Or.inl rfl⟩
  · simp only []
    split
    · obtain ⟨t2, p2, ht2, hok2, hp2, hin2, hsh⟩ := dropStep_step shapeIndex
        { gs with lastTime := time, dropCounter := gs.dropCounter + (time - gs.lastTime) }
        p hp hok hin
      rw [ht2]
      exact ⟨_, p2, rfl, hok2, hp2, hin2, hsh⟩
    · exact ⟨_, p, rfl, hok, hp, hin, Or.inl rfl⟩

theorem handleKeyDown_board (key : Key) (shapeIndex : Fin 7) (gs : GameState) (p : Piece)
    (hp : gs.piece = some p) (hok : BoardOk gs.board) (hin : InBounds p)
    (hrect : key = Key.ArrowUp → Rectangular p.shape) :
    ∃ t p2, handleKeyDown key shapeIndex gs = some t ∧ BoardOk t.board ∧
      t.piece = some p2 ∧ InBounds p2 ∧
      (Rectangular p.shape → Rectangular p2.shape) := by
  unfold handleKeyDown
  split
  · exact ⟨gs, p, rfl, hok, hp, hin, id⟩
  · cases key with
    | ArrowLeft =>
      obtain ⟨t, p2, ht, hok2, hp2, hin2, hsh⟩ := moveStep_step (-1) gs p hp hok hin
      exact ⟨t, p2, ht, hok2, hp2, hin2, fun h => by rw [hsh]; exact h⟩
    | ArrowRight =>
      obtain ⟨t, p2, ht, hok2, hp2, hin2, hsh⟩ := moveStep_step 1 gs p hp hok hin
      exact ⟨t, p2, ht, hok2, hp2, hin2, fun h => by rw [hsh]; exact h⟩
    | ArrowDown =>
      obtain ⟨t, p2, ht, hok2, hp2, hin2, hsh⟩ := dropStep_step shapeIndex gs p hp hok hin
      simp only [ht]
      exact ⟨_, p2, rfl, hok2, hp2, hin2, fun h => shape_kept_or_drawn shapeIndex p p2 h hsh⟩
    | ArrowUp =>
      obtain ⟨t, p2, ht, hok2, hp2, hpk2⟩ :=
        attemptRotation_step gs p hp hok ⟨hin, hrect rfl⟩
      exact ⟨t, p2, ht, hok2, hp2, hpk2.1, fun _ => hpk2.2⟩
    | other => exact ⟨gs, p, rfl, hok, hp, hin, id⟩

theorem stateOk_of_piece (t : GameState) (p2 : Piece) (hok : BoardOk t.board)
    (hp : t.piece = some p2) (hpk : PieceOk p2) : StateOk t := by
  refine ⟨hok, ?_, fun _ => ⟨p2, hp⟩⟩
  intro q hq
  have e : some p2 = some q := hp.symm.trans hq
  cases e
  exact hpk

theorem updateGame_step (time : Int) (shapeIndex : Fin 7) (gs : GameState)
    (hs : StateOk gs) : ∃ t, updateGame time shapeIndex gs = some t ∧ StateOk t := by
  by_cases hrun : gs.running = true
  · obtain ⟨p, hp⟩ := hs.2.2 hrun
    obtain ⟨t, p2, ht, hok2, hp2, hin2, hsh⟩ :=
      updateGame_board time shapeIndex gs p hp hs.1 (hs.2.1 p hp).1
    exact ⟨t, ht, stateOk_of_piece t p2 hok2 hp2
      ⟨hin2, shape_kept_or_drawn shapeIndex p p2 (hs.2.1 p hp).2 hsh⟩⟩
  · exact ⟨gs, by simp [updateGame, hrun], hs⟩

theorem handleKeyDown_step (key : Key) (shapeIndex : Fin 7) (gs : GameState)
    (hs : StateOk gs) : ∃ t, handleKeyDown key shapeIndex gs = some t ∧ StateOk t := by
  by_cases hrun : gs.running = true
  · obtain ⟨p, hp⟩ := hs.2.2 hrun
    obtain ⟨t, p2, ht, hok2, hp2, hin2, hsh⟩ :=
      handleKeyDown_board key shapeIndex gs p hp hs.1 (hs.2.1 p hp).1
        (fun _ => (hs.2.1 p hp).2)
    exact ⟨t, ht, stateOk_of_piece t p2 hok2 hp2 ⟨hin2, hsh (hs.2.1 p hp).2⟩⟩
  · exact ⟨gs, by simp [handleKeyDown, hrun], hs⟩

theorem start_stateOk (shapeIndex : Fin 7) (gs : GameState) :
    StateOk (start shapeIndex gs) := by
  refine ⟨?_, ?_, fun _ => ⟨generatePiece shapeIndex, rfl⟩⟩
  · have e : (start shapeIndex gs).board = createBoard 14 30 := rfl
    rw [e]; decide
  · intro q hq
    have e : some (generatePiece shapeIndex) = some q := hq
    cases e
    exact generatePiece_ok shapeIndex

theorem reachable_stateOk (gs : GameState) (hr : Reachable gs) : StateOk gs := by
  induction hr with
  | init =>
    refine ⟨by decide, ?_, ?_⟩
    · intro p hp; cases hp
    · intro h; cases h
  | start shapeIndex s _ _ => exact start_stateOk shapeIndex s
  | tick time shapeIndex s t _ h ih =>
    obtain ⟨t2, ht2, hs2⟩ := updateGame_step time shapeIndex s ih
    rw [h] at ht2
    cases ht2
    exact hs2
  | input key shapeIndex s t _ h ih =>
    obtain ⟨t2, ht2, hs2⟩ := handleKeyDown_step key shapeIndex s ih
    rw [h] at ht2
    cases ht2
    exact hs2

theorem reachable_boardOk (gs : GameState) (hr : Reachable gs) : BoardOk gs.board :=
  (reachable_stateOk gs hr).1

/-- C14: the board made by `createBoard(14, 30)` and by start has 30 rows of 14 cells, all
zero. From a board of 30 rows of 14 cells with every cell 0 or 1, `removeFullRows`,
`attemptRotation` and the horizontal move return with such a board whenever they return;
when the active piece lies inside the board (as every piece that does not collide does),
`solidifyPiece`, `removeFullRows`, the horizontal move, the drop step, `updateGame`,
`handleKeyDown` and, for a rectangular shape, `attemptRotation` do return, and with such a
board. Every reachable state has such a board and an active piece inside the board, and
every tick and key event on it returns, with such a state again. A piece that sticks out
of the board is not covered: locking it lengthens rows. -/
theorem boardShape_invariant :
    (BoardOk (createBoard 14 30) ∧ ∀ row ∈ createBoard 14 30, ∀ c ∈ row, c = 0) ∧
    (∀ (shapeIndex : Fin 7) (gs : GameState),
      (start shapeIndex gs).board = createBoard 14 30) ∧
    (∀ (p : Piece) (board : Board), WellFormed board →
      checkCollision p board = some false → InBounds p) ∧
    (∀ gs t : GameState, BoardOk gs.board →
      (∀ k, removeFullRows gs = some (t, k) → BoardOk t.board) ∧
      (attemptRotation gs = some t → BoardOk t.board) ∧
      (∀ dx, moveStep dx gs = some t → BoardOk t.board)) ∧
    (∀ (gs : GameState) (p : Piece), BoardOk gs.board → gs.piece = some p → InBounds p →
      (∀ shapeIndex, ∃ t, solidifyPiece handleGameOver shapeIndex gs = some t ∧
        BoardOk t.board) ∧
      (∃ t k, removeFullRows gs = some (t, k) ∧ BoardOk t.board) ∧
      (∀ dx, ∃ t, moveStep dx gs = some t ∧ BoardOk t.board) ∧
      (∀ shapeIndex, ∃ t, dropStep shapeIndex gs = some t ∧ BoardOk t.board) ∧
      (∀ time shapeIndex, ∃ t, updateGame time shapeIndex gs = some t ∧ BoardOk t.board) ∧
      (∀ key shapeIndex, (key = Key.ArrowUp → Rectangular p.shape) →
        ∃ t, handleKeyDown key shapeIndex gs = some t ∧ BoardOk t.board) ∧
      (Rectangular p.shape → ∃ t, attemptRotation gs = some t ∧ BoardOk t.board)) ∧
    (∀ gs : GameState, Reachable gs →
      StateOk gs ∧
      (∀ time shapeIndex, ∃ t, updateGame time shapeIndex gs = some t ∧ StateOk t) ∧
      (∀ key shapeIndex, ∃ t, handleKeyDown key shapeIndex gs = some t ∧ StateOk t)) ∧
    (¬ InBounds { position := { x := 13, y := 5 }, shape := [[1, 1], [1, 1]],
                  color := "#E0E722" } ∧
      (solidifyPiece handleGameOver 0 squareAcrossRightWall).map
        (fun t => t.board.map List.length) =
        some (List.replicate 5 14 ++ [15, 15] ++ List.replicate 23 14)) := by
  refine ⟨⟨by decide, by decide⟩, fun _ _ => rfl, free_inBounds, ?_, ?_, ?_, ?_, by decide⟩
  · intro gs t hok
    refine ⟨fun k h => removeFullRows_ok gs t k h hok, fun h => ?_, fun dx h => ?_⟩
    · rw [attemptRotation_board gs t h]; exact hok
    · rw [moveStep_board dx gs t h]; exact hok
  · intro gs p hok hp hin
    refine ⟨fun i => ?_, ?_, fun dx => ?_, fun i => ?_, fun time i => ?_,
      fun key i hrect => ?_, fun hrect => ?_⟩
    · obtain ⟨t, ht, hok2, _⟩ := solidifyPiece_step i gs p hp hok hin
      exact ⟨t, ht, hok2⟩
    · obtain ⟨t, k, ht⟩ := removeFullRows_total gs hok.1
      exact ⟨t, k, ht, removeFullRows_ok gs t k ht hok⟩
    · obtain ⟨t, p2, ht, hok2, _⟩ := moveStep_step dx gs p hp hok hin
      exact ⟨t, ht, hok2⟩
    · obtain ⟨t, p2, ht, hok2, _⟩ := dropStep_step i gs p hp hok hin
      exact ⟨t, ht, hok2⟩
    · obtain ⟨t, p2, ht, hok2, _⟩ := updateGame_board time i gs p hp hok hin
      exact ⟨t, ht, hok2⟩
    · obtain ⟨t, p2, ht, hok2, _⟩ := handleKeyDown_board key i gs p hp hok hin hrect
      exact ⟨t, ht, hok2⟩
    · obtain ⟨t, p2, ht, hok2, _⟩ := attemptRotation_step gs p hp hok ⟨hin, hrect⟩
      exact ⟨t, ht, hok2⟩
  · intro gs hr
    have hs := reachable_stateOk gs hr
    exact ⟨hs, fun time i => updateGame_step time i gs hs,
      fun key i => handleKeyDown_step key i gs hs⟩
  · intro hin
    have := hin 0 1 [1, 1] 1 rfl rfl (by decide)
    simp only at this
    omega

/-- Witness of C14: the soft drop on `clearUnderOverhang`, which locks the square and
removes a row, returns with a board of 30 rows of 14 cells, each 0 or 1, although the
piece drawn next then overlaps the board. -/
theorem boardShape_invariant_witness :
    BoardOk clearUnderOverhang.board ∧
    ∃ t, handleKeyDown Key.ArrowDown 5 clearUnderOverhang = some t ∧ BoardOk t.board := by
  have hok : BoardOk clearUnderOverhang.board := by decide
  exact ⟨hok, (boardShape_invariant.2.2.2.2.1 clearUnderOverhang _ hok rfl
    (boardShape_invariant.2.2.1 _ clearUnderOverhang.board hok.1 (by decide))).2.2.2.2.2.1
    Key.ArrowDown 5 (fun h => Key.noConfusion h)⟩

/-! ## Validity of the active piece after a lock -/

/-- C20, the code at the failing input: on `clearUnderOverhang` the resting square does
not collide; the soft drop and the due tick lock it, which completes row 29. The piece
drawn next (catalog index 2, 5 or 6) is tested on the board before the row is removed and
does not collide there, then the removal moves the bar of row 0 down into row 1, onto the
new piece: the call returns with `running = true` and an active piece that collides. -/
theorem lock_then_overlap :
    WellFormed clearUnderOverhang.board ∧
    clearUnderOverhang.piece.bind (fun piece => checkCollision piece clearUnderOverhang.board)
      = some false ∧
    clearUnderOverhang.piece.bind
      (fun piece => checkCollision (lowered piece) clearUnderOverhang.board) = some true ∧
    (∀ shapeIndex : Fin 7, shapeIndex = 2 ∨ shapeIndex = 5 ∨ shapeIndex = 6 →
      (handleKeyDown Key.ArrowDown shapeIndex clearUnderOverhang).map pieceCheck =
        some (true, some true) ∧
      (updateGame 7601 shapeIndex clearUnderOverhang).map pieceCheck =
        some (true, some true)) ∧
    ((solidifyPiece handleGameOver 5 clearUnderOverhang).map pieceCheck =
      some (true, some false)) := by
  refine ⟨by decide, by decide, by decide, ?_, by rfl⟩
  intro shapeIndex h
  rcases h with h | h | h <;> subst h <;> exact ⟨rfl, rfl⟩

end Tetris
